import Mathlib

/-!
# Verification of the sevenquiz lobby engine

Shallow embedding, in Lean 4, of the core of the `sevenquiz-backend`
repository: the lobby data model and its operations (`internal/quiz/lobby.go`
latest revision, `internal/quiz/lobbies.go`, `internal/quiz/player.go`), the
sliding-window rate limiter (`internal/rate/limiter.go`), and the
connection/start/review handlers (`internal/handlers`).  Go maps keyed by
`*websocket.Conn` are modelled as association lists keyed by `Option Conn`
(the `none` key is the nil-connection slot); Go channels' one-shot close is a
Boolean flag plus an explicit fault (`Except`) for the close-of-closed-channel
run-time panic; `time.Time`/`time.Duration` are integers (nanoseconds).
-/

namespace SevenQuiz

/-- Websocket connection identity (Go `*websocket.Conn` compared by pointer). -/
abbrev Conn := Nat

/-- Go `time.Duration` in nanoseconds. -/
abbrev Duration := Int

/-- `api.Media` (src/api/question.go). -/
structure Media where
  path : String
  mtype : String
deriving DecidableEq, Repr

/-- `api.OrderItem` (src/api/question.go). -/
structure OrderItem where
  name : String
  media : Media
deriving DecidableEq, Repr

/-- `api.Answer` (src/api/question.go). -/
structure Answer where
  x : Int
  y : Int
  text : String
  choices : List String
  order : List String
deriving DecidableEq, Repr

/-- `api.Question` (src/api/question.go).  The Go `Options any` field is an
opaque JSON payload; it is carried around untouched by all the code modelled
here, so it is embedded as an opaque string option. -/
structure Question where
  id : Int
  title : String
  qtype : String
  time : Duration
  medias : List Media
  choices : List String
  orderItems : List OrderItem
  categories : List String
  options : Option String
  answer : Option Answer
deriving DecidableEq, Repr

/-- `api.Quiz` (a name together with an ordered question list, as constructed
in src/internal/handlers/handlers_test.go: `api.Quiz{Name: ..., Questions: ...}`). -/
structure Quiz where
  name : String
  questions : List Question
deriving DecidableEq, Repr

/-- `quiz.LobbyState` (src/unnamed/part_012 lines 21-29).  The spec's "Review"
state is the source's `LobbyStateAnswers`. -/
inductive LobbyState where
  | created
  | register
  | quiz
  | answers
  | ended
deriving DecidableEq, Repr

/-- `quiz.Player` (fields from src/unnamed/part_011, which carries the score,
merged with src/internal/quiz/player.go, whose `RegisterAnswer` does the lazy
map initialisation; the field sets are compatible).  `answers = none` models
the Go nil map a fresh player starts with. -/
structure Player where
  username : String
  answers : Option (List (Int × Answer))
  score : Int
  alive : Bool
deriving DecidableEq, Repr

/-- Go map lookup on an association list (first matching key). -/
def lookupKey [DecidableEq κ] : List (κ × α) → κ → Option α
  | [], _ => none
  | (k, v) :: rest, k0 => if k0 = k then some v else lookupKey rest k0

/-- Go map assignment `m[k] = v`: replace the binding if the key is present,
append it otherwise. -/
def setKey [DecidableEq κ] : List (κ × α) → κ → α → List (κ × α)
  | [], k0, v0 => [(k0, v0)]
  | (k, v) :: rest, k0, v0 =>
    if k0 = k then (k0, v0) :: rest else (k, v) :: setKey rest k0 v0

/-- Go map deletion `delete(m, k)`. -/
def delKey [DecidableEq κ] : List (κ × α) → κ → List (κ × α)
  | [], _ => []
  | (k, v) :: rest, k0 => if k0 = k then rest else (k, v) :: delKey rest k0

/-- Insertion into a sorted string list, auxiliary to `sortStrings`. -/
def insertSorted (s : String) : List String → List String
  | [] => [s]
  | t :: ts => if s ≤ t then s :: t :: ts else t :: insertSorted s ts

/-- Go `sort.Strings` (ascending lexicographic sort). -/
def sortStrings (l : List String) : List String := l.foldr insertSorted []

/-- `quiz.Lobby` (src/unnamed/part_012 lines 49-67).  `players` is the
connection-to-player map; a `none` key is the nil-connection slot and a `none`
value an unregistered connection.  `doneClosed` is whether the one-shot
`doneCh` channel has been closed. -/
structure Lobby where
  id : String
  owner : String
  maxPlayers : Int
  quizzes : List (String × Quiz)
  quiz : Quiz
  question : Option Question
  password : String
  players : List (Option Conn × Option Player)
  jwtKey : List Nat
  created : Nat
  state : LobbyState
  doneClosed : Bool
deriving DecidableEq, Repr

namespace Lobby

/-- `Lobby.Close` (src/unnamed/part_012 lines 70-87): close every non-nil
connection of the players map with `StatusNormalClosure`, then
`close(l.doneCh)`.  In Go, closing an already-closed channel panics at run
time; the model surfaces that panic as an `Except.error`.  On success the
closed connections are returned alongside the updated lobby. -/
def close (l : Lobby) : Except String (Lobby × List Conn) :=
  let closed := l.players.filterMap (fun e => e.1)
  if l.doneClosed then .error "close of closed channel"
  else .ok ({ l with doneClosed := true }, closed)

/-- `Lobby.CloseUnregisteredConns` (src/unnamed/part_012 lines 90-105): close
(without removing) every non-nil connection whose player slot is nil.  Returns
the list of connections closed. -/
def closeUnregisteredConns (l : Lobby) : List Conn :=
  l.players.filterMap (fun e =>
    match e.1, e.2 with
    | some c, none => some c
    | _, _ => none)

/-- `Lobby.GetPlayerByConn` (src/unnamed/part_012 lines 279-284): map lookup,
second return value is presence. -/
def getPlayerByConn (l : Lobby) (conn : Conn) : Option (Option Player) :=
  lookupKey l.players (some conn)

/-- `Lobby.getPlayer` (src/unnamed/part_012 lines 247-257): scan for the first
registered player with the given username. -/
def getPlayer (l : Lobby) (username : String) : Option (Option Conn × Player) :=
  l.players.findSome? (fun e =>
    match e.2 with
    | none => none
    | some p => if p.username = username then some (e.1, p) else none)

/-- `Lobby.GetPlayerList` (src/unnamed/part_012 lines 260-275): usernames of
the map values that are present and alive, sorted ascending. -/
def getPlayerList (l : Lobby) : List String :=
  sortStrings (l.players.filterMap (fun e =>
    match e.2 with
    | none => none
    | some p => if p.alive then some p.username else none))

/-- `Lobby.AddPlayerWithConn` (src/unnamed/part_012 lines 287-295): bind the
connection to a fresh registered player (`alive = true`, nil answers map,
zero score). -/
def addPlayerWithConn (l : Lobby) (conn : Conn) (username : String) : Lobby :=
  { l with players := (setKey l.players (some conn)
      (some { username := username, answers := none, score := 0, alive := true })) }

/-- `Lobby.AddConn` (src/unnamed/part_012 lines 299-303): record an
unregistered slot for the connection. -/
def addConn (l : Lobby) (conn : Conn) : Lobby :=
  { l with players := setKey l.players (some conn) none }

/-- `Lobby.DeletePlayerByConn` / `deleteConn` (src/unnamed/part_012 lines
436-447): close the connection (if non-nil) and delete its map entry. -/
def deletePlayerByConn (l : Lobby) (conn : Conn) : Lobby :=
  { l with players := delKey l.players (some conn) }

/-- `Lobby.SetOwner` (src/unnamed/part_012 lines 125-129). -/
def setOwner (l : Lobby) (username : String) : Lobby := { l with owner := username }

/-- `Lobby.SetState` (src/unnamed/part_012 lines 156-160). -/
def setState (l : Lobby) (s : LobbyState) : Lobby := { l with state := s }

/-- `Lobby.SetCurrentQuestion` (src/unnamed/part_012 lines 163-167). -/
def setCurrentQuestion (l : Lobby) (q : Option Question) : Lobby := { l with question := q }

/-- `Lobby.SetQuiz` (src/unnamed/part_012 lines 191-195). -/
def setQuiz (l : Lobby) (q : Quiz) : Lobby := { l with quiz := q }

end Lobby

namespace Player

/-- `Player.RegisterAnswer` (src/internal/quiz/player.go lines 53-60): lazily
initialise the answers map when it is nil, then write the answer under the
question id. -/
def registerAnswer (p : Player) (questionID : Int) (answer : Answer) : Player :=
  let m := match p.answers with
    | none => []
    | some m => m
  { p with answers := some (setKey m questionID answer) }

/-- `Player.AllAnswers` (src/internal/quiz/player.go lines 19-29): snapshot
iteration over the `(questionId, answer)` pairs; a nil map yields nothing. -/
def allAnswers (p : Player) : List (Int × Answer) :=
  match p.answers with
  | none => []
  | some m => m

/-- `Player.AddScore` (src/unnamed/part_011 lines 32-36). -/
def addScore (p : Player) (delta : Int) : Player := { p with score := p.score + delta }

/-- `Player.GetAnswer`-style lookup used by the review phase
(src/unnamed/part_011 lines 72-76), returning presence explicitly. -/
def findAnswer (p : Player) (questionID : Int) : Option Answer :=
  lookupKey p.allAnswers questionID

end Player

/-! ## Per-lobby token key derivation and JWT model

`newLobbyTokenKey` (src/internal/quiz/lobbies.go lines 156-161) builds the Go
string `fmt.Sprintf("%s%s%d", secret, id, created.Unix())` and hex-encodes its
bytes with `fmt.Sprintf("%x", key)`.  Bytes are modelled as `Nat`s.  The
HMAC-SHA256 primitive of the jwt library is external to the repository; it is
embedded as an abstract deterministic function `mac : List Nat → String → Sig`
(key, serialized claims payload) supplied as a parameter. -/

/-- Bytes of a string (code points; ids and salts here are ASCII). -/
def strBytes (s : String) : List Nat := s.data.map Char.toNat

/-- Lower-case hex digit of a nibble, as an ASCII byte (Go `%x`). -/
def hexDigit (n : Nat) : Nat := if n < 10 then 48 + n else 87 + n

/-- Hex encoding of a byte string, as produced by Go `fmt.Sprintf("%x", s)`. -/
def hexBytes (bs : List Nat) : List Nat :=
  bs.flatMap (fun b => [hexDigit (b / 16), hexDigit (b % 16)])

/-- ASCII decimal representation of a natural, as produced by Go `%d`. -/
def decBytes (n : Nat) : List Nat :=
  if n = 0 then [48] else (Nat.digits 10 n).reverse.map (fun d => d + 48)

/-- `newLobbyTokenKey` (src/internal/quiz/lobbies.go lines 156-161):
`hex(salt ∥ id ∥ createdUnixSeconds)`. -/
def newLobbyTokenKey (secret : List Nat) (id : String) (created : Nat) : List Nat :=
  hexBytes (secret ++ strBytes id ++ decBytes created)

/-- The two claims carried by a lobby token (`lobbyId`, `username`). -/
structure TokenClaims where
  lobbyId : String
  username : String
deriving DecidableEq, Repr

/-- Serialization of the claims map that gets signed. -/
def claimsPayload (c : TokenClaims) : String :=
  "lobbyId:" ++ c.lobbyId ++ ";username:" ++ c.username

/-- A signed token: the `alg` header (whether it names an HMAC method), the
claims, and the signature over the serialized claims. -/
structure Token (Sig : Type) where
  hmacAlg : Bool
  claims : TokenClaims
  sig : Sig
deriving DecidableEq, Repr

/-- `Lobby.NewToken` (src/unnamed/part_012 lines 450-456): sign
`{lobbyId: l.id, username}` with HS256 under the lobby's key. -/
def Lobby.newToken {Sig : Type} (mac : List Nat → String → Sig) (l : Lobby)
    (username : String) : Token Sig :=
  let claims : TokenClaims := { lobbyId := l.id, username := username }
  { hmacAlg := true, claims := claims, sig := mac l.jwtKey (claimsPayload claims) }

/-- `Lobby.CheckToken` (src/unnamed/part_012 lines 461-478) together with
`jwtKeyFunc` (lines 489-496): reject a non-HMAC `alg` header, reject a bad
signature, reject a `lobbyId` claim that differs from the lobby's id, and
otherwise return the claims. -/
def Lobby.checkToken {Sig : Type} [DecidableEq Sig] (mac : List Nat → String → Sig)
    (l : Lobby) (t : Token Sig) : Except String TokenClaims :=
  if ¬ t.hmacAlg then .error "unexpected signing method"
  else if t.sig ≠ mac l.jwtKey (claimsPayload t.claims) then .error "signature is invalid"
  else if t.claims.lobbyId ≠ l.id then .error "token does not match lobby id"
  else .ok t.claims

/-! ## Lobby registry (src/internal/quiz/lobbies.go) -/

/-- The `lobbies` container: lobby id to lobby. -/
structure Registry where
  lobbies : List (String × Lobby)
deriving DecidableEq, Repr

/-- `quiz.LobbyOptions` (src/internal/quiz/lobbies.go lines 28-66). -/
structure LobbyOptions where
  owner : String
  maxPlayers : Int
  quizzes : List (String × Quiz)
  jwtSalt : List Nat
  registerTimeout : Duration
  timeout : Duration
  password : String
deriving Repr

/-- 15 minutes in nanoseconds, the `RegisterTimeout` default. -/
def fifteenMinutes : Duration := 900000000000

/-- The register-timeout default applied by `lobbies.Register`
(src/internal/quiz/lobbies.go lines 80-82): a zero value selects 15 minutes. -/
def effectiveRegisterTimeout (d : Duration) : Duration :=
  if d = 0 then fifteenMinutes else d

/-- `Lobby.listQuizzes` (src/unnamed/part_012 lines 208-218): sorted quiz
names. -/
def listQuizzes (quizzes : List (String × Quiz)) : List String :=
  sortStrings (quizzes.map Prod.fst)

/-- The id retry loop of `lobbies.Register` (src/internal/quiz/lobbies.go
lines 118-126): while retries remain and the current id collides, draw a new
id and decrement.  Returns the final id and the remaining retry count (the
caller errors out when it is zero).  `draws k` is the k-th id produced by
`newLobbyID`. -/
def retryIds (taken : List String) (draws : Nat → String) :
    Nat → Nat → String → String × Nat
  | 0, _, id => (id, 0)
  | r + 1, k, id =>
    if id ∈ taken then retryIds taken draws r (k + 1) (draws k)
    else (id, r + 1)

/-- `lobbies.Register` (src/internal/quiz/lobbies.go lines 76-136).  `draws`
enumerates the ids minted by `newLobbyID`; `now` is the creation timestamp in
unix seconds.  Returns the result, the updated registry, and — when a
supervisor goroutine was spawned — the timeout it was given. -/
def registerLobby (reg : Registry) (opts : LobbyOptions) (draws : Nat → String)
    (now : Nat) : Except String Lobby × Registry × Option Duration :=
  let maxPlayers := if opts.maxPlayers = 0 then 25 else opts.maxPlayers
  let registerTimeout := effectiveRegisterTimeout opts.registerTimeout
  let id0 := draws 0
  let lobby0 : Lobby :=
    { id := id0, owner := opts.owner, maxPlayers := maxPlayers
      quizzes := opts.quizzes, quiz := { name := "", questions := [] }
      question := none, password := opts.password
      players := [], jwtKey := newLobbyTokenKey opts.jwtSalt id0 now
      created := now, state := .created, doneClosed := false }
  if opts.quizzes = [] then (.error "lobby has no quizzes", reg, none)
  else
    match listQuizzes lobby0.quizzes with
    | [] => (.error "quiz does not exists", reg, none)
    | n0 :: _ =>
      match lookupKey lobby0.quizzes n0 with
      | none => (.error "quiz does not exists", reg, none)
      | some q =>
        let lobby1 := lobby0.setQuiz q
        let pr := retryIds (reg.lobbies.map Prod.fst) draws 50 1 id0
        if pr.2 = 0 then (.error "no lobby slot available", reg, none)
        else
          let lobby2 := { lobby1 with id := pr.1 }
          (.ok lobby2, { lobbies := setKey reg.lobbies pr.1 lobby2 }, some registerTimeout)

/-- `lobbies.Get` (src/internal/quiz/lobbies.go lines 163-169). -/
def Registry.get (reg : Registry) (id : String) : Option Lobby :=
  lookupKey reg.lobbies id

/-- `lobbies.Delete` (src/internal/quiz/lobbies.go lines 172-181): close the
lobby if present (a close-of-closed-channel panic propagates), then remove the
entry.  Returns the connections closed. -/
def Registry.delete (reg : Registry) (id : String) :
    Except String (Registry × List Conn) :=
  match lookupKey reg.lobbies id with
  | some lobby =>
    match lobby.close with
    | .error e => .error e
    | .ok (_, closed) => .ok ({ lobbies := delKey reg.lobbies id }, closed)
  | none => .ok ({ lobbies := delKey reg.lobbies id }, [])

/-- `lobbies.lobbyTimeout` (src/internal/quiz/lobbies.go lines 138-149), at
the moment the timeout fires: if the lobby's done channel closed first, no
action; on timeout, delete the lobby iff its state is still Created or
Register. -/
def lobbyTimeoutFire (reg : Registry) (lobby : Lobby) :
    Except String (Registry × List Conn) :=
  if lobby.doneClosed then .ok (reg, [])
  else
    match lobby.state with
    | .created => reg.delete lobby.id
    | .register => reg.delete lobby.id
    | _ => .ok (reg, [])

/-! ## Sliding-window rate limiter (src/internal/rate/limiter.go) -/

/-- `rate.Limiter` state: window, limit and timestamp history (timestamps are
integers, the injected clock's readings). -/
structure Limiter where
  window : Duration
  limit : Nat
  history : List Int
deriving DecidableEq, Repr

/-- `Limiter.slide` (src/internal/rate/limiter.go lines 58-65): drop the
leading history entries strictly before `now - window`. -/
def Limiter.slide (l : Limiter) (now : Int) : List Int :=
  l.history.dropWhile (fun t => t < now - l.window)

/-- `Limiter.Allow` (src/internal/rate/limiter.go lines 42-56): store the slid
history, deny when it already holds `limit` entries, otherwise append `now`
and admit. -/
def Limiter.allow (l : Limiter) (now : Int) : Bool × Limiter :=
  let h := l.slide now
  if l.limit ≤ h.length then (false, { l with history := h })
  else (true, { l with history := h ++ [now] })

/-- `Limiter.Slots` (src/internal/rate/limiter.go lines 67-72): `limit` minus
the live record count; the state is not mutated. -/
def Limiter.slots (l : Limiter) (now : Int) : Int :=
  (l.limit : Int) - ((l.slide now).length : Int)

/-- `Limiter.Wait` (src/internal/rate/limiter.go lines 74-103), entered at
instant `now`.  Returns the updated limiter and the instant at which the call
returns.  When every slot is taken, the timer fires at
`history[0] + window` and that instant's clock reading is appended — to the
original, un-slid stored history (the local `history := l.slide(now)` is never
written back).  The fire instant equals the deadline exactly, the timing
realised by the repository's own mock-clock tests. -/
def Limiter.wait (l : Limiter) (now : Int) : Limiter × Int :=
  if l.history.length < l.limit then (l, now)
  else
    match l.slide now with
    | [] => (l, now)
    | t0 :: rest =>
      if (t0 :: rest).length < l.limit then (l, now)
      else
        let next := t0 + l.window
        ({ l with history := l.history ++ [next] }, next)

/-- A call against the limiter: `Allow()`, `Slots()` or `Wait(ctx)`. -/
inductive RLOp where
  | allow
  | slots
  | wait
deriving DecidableEq, Repr

/-- Run a sequence of limiter calls, each tagged with the clock reading at
which it is made (`Slots` never mutates; `Wait` leaves the state its
implementation stores). -/
def runOps (l : Limiter) : List (RLOp × Int) → Limiter
  | [] => l
  | (op, t) :: rest =>
    match op with
    | .allow => runOps (l.allow t).2 rest
    | .slots => runOps l rest
    | .wait => runOps (l.wait t).1 rest

/-- The number of recorded timestamps lying within `[now − window, now]`. -/
def Limiter.liveCount (l : Limiter) (now : Int) : Nat :=
  (l.history.filter (fun t => decide (now - l.window ≤ t) && decide (t ≤ now))).length

/-! ## Connection handlers (src/internal/handlers) -/

/-- Websocket error taxonomy (src/api/errors.go lines 29-39), restricted to
the codes produced by the handlers modelled here. -/
inductive ApiError where
  | invalidRequest
  | unauthorized
deriving DecidableEq, Repr

/-- Stable numeric code of a websocket error (src/api/errors.go). -/
def ApiError.code : ApiError → Nat
  | .invalidRequest => 201
  | .unauthorized => 209

/-- The per-recipient messages of `Lobby.BroadcastStart` (src/unnamed/part_012
lines 376-389): `Broadcast` fans out over the registered entries (non-nil
connection bound to a non-nil player) and the message for each recipient is a
start response carrying `NewToken(player.Username())`. -/
def Lobby.broadcastStartMsgs {Sig : Type} (mac : List Nat → String → Sig)
    (l : Lobby) : List (Conn × Token Sig) :=
  l.players.filterMap (fun e =>
    match e.1, e.2 with
    | some c, some p => some (c, l.newToken mac p.username)
    | _, _ => none)

/-- `handleStartRequest` (src/unnamed/part_020 lines 246-271, the part
preceding the scheduler goroutine).  `decodeOk` is whether the request body
decoded.  On success returns the mutated lobby, the connections closed by
`CloseUnregisteredConns`, and the per-recipient start broadcast. -/
def handleStartRequest {Sig : Type} (mac : List Nat → String → Sig) (l : Lobby)
    (conn : Conn) (decodeOk : Bool) :
    Except ApiError (Lobby × List Conn × List (Conn × Token Sig)) :=
  if ¬ decodeOk then .error .invalidRequest
  else
    match l.getPlayerByConn conn with
    | none => .error .unauthorized
    | some none => .error .unauthorized
    | some (some client) =>
      if client.username ≠ l.owner then .error .unauthorized
      else
        let q := l.quiz
        let q1 := { q with questions := q.questions.mapIdx (fun i qq => { qq with id := (i : Int) }) }
        let l1 := (l.setQuiz q1).setState .quiz
        .ok (l1, l1.closeUnregisteredConns, l1.broadcastStartMsgs mac)

/-! ## Quiz scheduler (src/unnamed/part_020 lines 272-300, the goroutine
spawned by `handleStartRequest`) -/

/-- An observable action of the scheduler goroutine. -/
inductive SchedEvent where
  | setCurrent (q : Option Question)
  | broadcastQuestion (q : Question)
  | waitUntil (deadline : Int)
  | newState (s : LobbyState)
deriving DecidableEq, Repr

/-- 30 seconds in nanoseconds, the per-question time default. -/
def thirtySeconds : Duration := 30000000000

/-- The loop-body mutation of the iteration variable in the scheduler
goroutine (src/unnamed/part_020 lines 279-282): `question.Answer = nil` and
the 30-second default for a non-positive `question.Time`. -/
def playbackQuestion (q : Question) : Question :=
  { q with answer := none, time := if q.time ≤ 0 then thirtySeconds else q.time }

/-- The scheduler goroutine (src/unnamed/part_020 lines 272-300).  `ended i`
is whether the `lobby.State() == LobbyStateEnded` check observes Ended at the
top of iteration `i` (all players left); `t` is the clock at the start of the
iteration.  Each iteration strips the canonical answer, defaults a non-positive
time to 30 s, sets the current question, broadcasts it and waits until the
absolute deadline `start + q.time`; after the last question the current
question is cleared and the state set to `LobbyStateAnswers`. -/
def runScheduler (ended : Nat → Bool) : Nat → Int → List Question → List SchedEvent
  | _, _, [] => [.setCurrent none, .newState .answers]
  | i, t, q :: rest =>
    if ended i then []
    else
      let q1 := playbackQuestion q
      .setCurrent (some q1) :: .broadcastQuestion q1 :: .waitUntil (t + q1.time) ::
        runScheduler ended (i + 1) (t + q1.time) rest

/-- Per-question playback as worded by the spec (§4.6 steps 1-4): strip the
canonical answer from the outgoing payload, default the time to 30 s when
unset, make the question current, broadcast it, wait until the absolute
deadline `start + time`. -/
def specQuestionEvents : Int → List Question → List SchedEvent
  | _, [] => []
  | t, q :: rest =>
    let time := if q.time ≤ 0 then thirtySeconds else q.time
    let q1 := { q with answer := none, time := time }
    .setCurrent (some q1) :: .broadcastQuestion q1 :: .waitUntil (t + time) ::
      specQuestionEvents (t + time) rest

/-! ## Disconnect routine (src/internal/handlers/handlers.go lines 132-206) -/

/-- Outcome of `LobbyHandler.handleDisconnect`: the updated registry and
lobby, the `playerUpdate` broadcasts `(username, action)` in order, and
whether the lobby was deleted from the registry. -/
structure DisconnectResult where
  registry : Registry
  lobby : Lobby
  broadcasts : List (String × String)
  lobbyDeleted : Bool
deriving DecidableEq, Repr

/-- `LobbyHandler.handleDisconnect` (src/internal/handlers/handlers.go lines
132-206).  In Created/Register: capture the player bound to the connection,
delete the slot, and if a registered player was bound, broadcast `disconnect`;
when that player was the owner, elect the first entry of the (sorted, live)
player list as new owner and broadcast `new owner`, or delete the lobby from
the registry when the list is empty.  In Quiz: flip the player to not alive
and end-and-delete when no live player remains.  Other states: no action. -/
def handleDisconnect (reg : Registry) (l : Lobby) (conn : Conn) :
    Except String DisconnectResult :=
  match l.state with
  | .created | .register =>
    let player? := l.getPlayerByConn conn
    let l1 := l.deletePlayerByConn conn
    match player? with
    | none => .ok ⟨reg, l1, [], false⟩
    | some none => .ok ⟨reg, l1, [], false⟩
    | some (some player) =>
      let msgs := [(player.username, "disconnect")]
      if l.owner ≠ player.username then .ok ⟨reg, l1, msgs, false⟩
      else
        match l1.getPlayerList with
        | [] =>
          match reg.delete l.id with
          | .error e => .error e
          | .ok (reg1, _) => .ok ⟨reg1, l1, msgs, true⟩
        | newOwner :: _ =>
          .ok ⟨reg, l1.setOwner newOwner, msgs ++ [(newOwner, "new owner")], false⟩
  | .quiz =>
    match l.getPlayerByConn conn with
    | none => .ok ⟨reg, l, [], false⟩
    | some none => .ok ⟨reg, l, [], false⟩
    | some (some player) =>
      let l1 := { l with players := setKey l.players (some conn) (some { player with alive := false }) }
      if l1.getPlayerList = [] then
        match reg.delete l.id with
        | .error e => .error e
        | .ok (reg1, _) => .ok ⟨reg1, l1.setState .ended, [], true⟩
      else .ok ⟨reg, l1, [], false⟩
  | _ => .ok ⟨reg, l, [], false⟩

/-! ## Review phase -/

/-- `handleReviewRequest` (src/internal/handlers/handlers_review.go lines
25-41): reject a body that does not decode, reject a sender that is not the
registered owner, otherwise deliver the `validate` decision to the scheduler
via `Lobby.SendReview` (the lobby's one-shot review channel). -/
def handleReviewRequest (l : Lobby) (conn : Conn) (decodeOk : Bool)
    (validate : Bool) : Except ApiError Bool :=
  if ¬ decodeOk then .error .invalidRequest
  else
    match l.getPlayerByConn conn with
    | none => .error .unauthorized
    | some none => .error .unauthorized
    | some (some client) =>
      if client.username ≠ l.owner then .error .unauthorized
      else .ok validate

/-- A `review{question, player, answer}` broadcast paired with the owner
decision that unblocked it. -/
structure ReviewEvent where
  question : Question
  player : String
  answer : Answer
  validate : Bool
deriving DecidableEq, Repr

/-- Modelled from the spec: the per-question inner loop of §4.6 step 6 — the
review driver that `Lobby.SendReview` feeds (the lobby's `review` channel is
constructed in src/internal/quiz/lobbies.go line 98 but the scheduler's review
loop itself is absent from src).  Iterate the players; for each live player
holding an answer to `q`, broadcast `review{q, player, answer}`, block on the
owner's next decision, and credit the score by 1 when the decision validates.
Returns `none` when the decision stream runs dry (the run blocks forever). -/
def reviewPlayers (q : Question) :
    List Player → List Bool → Option (List ReviewEvent × List Player × List Bool)
  | [], ds => some ([], [], ds)
  | p :: ps, ds =>
    if ¬ p.alive then
      (reviewPlayers q ps ds).map (fun r => (r.1, p :: r.2.1, r.2.2))
    else
      match p.findAnswer q.id with
      | none => (reviewPlayers q ps ds).map (fun r => (r.1, p :: r.2.1, r.2.2))
      | some a =>
        match ds with
        | [] => none
        | d :: ds1 =>
          let p1 := if d then p.addScore 1 else p
          (reviewPlayers q ps ds1).map
            (fun r => (⟨q, p.username, a, d⟩ :: r.1, p1 :: r.2.1, r.2.2))

/-- Modelled from the spec: §4.6 step 6 across the question list, in order. -/
def reviewQuestions :
    List Question → List Player → List Bool → Option (List ReviewEvent × List Player × List Bool)
  | [], ps, ds => some ([], ps, ds)
  | q :: qs, ps, ds =>
    match reviewPlayers q ps ds with
    | none => none
    | some (evs1, ps1, ds1) =>
      match reviewQuestions qs ps1 ds1 with
      | none => none
      | some (evs2, ps2, ds2) => some (evs1 ++ evs2, ps2, ds2)

/-- Modelled from the spec: §4.6 steps 6-7 — run every review, then broadcast
`results{username→score}` and set the state to Ended. -/
def runReview (qs : List Question) (players : List Player) (decisions : List Bool) :
    Option (List ReviewEvent × List Player × List (String × Int) × LobbyState) :=
  match reviewQuestions qs players decisions with
  | none => none
  | some (evs, ps, _) => some (evs, ps, ps.map (fun p => (p.username, p.score)), .ended)

/-! ## Generic association-list and sorting lemmas -/

theorem lookupKey_setKey [DecidableEq κ] (m : List (κ × α)) (k : κ) (v : α) :
    lookupKey (setKey m k v) k = some v := by
  induction m with
  | nil => simp [setKey, lookupKey]
  | cons e rest ih =>
    obtain ⟨k1, v1⟩ := e
    by_cases h : k = k1
    · simp [setKey, lookupKey, h]
    · simp [setKey, lookupKey, h, ih]

theorem lookupKey_eq_none_of_not_mem [DecidableEq κ] (m : List (κ × α)) (k : κ)
    (h : k ∉ m.map Prod.fst) : lookupKey m k = none := by
  induction m with
  | nil => rfl
  | cons e rest ih =>
    obtain ⟨k1, v1⟩ := e
    simp only [List.map_cons, List.mem_cons] at h
    push_neg at h
    simp [lookupKey, h.1, ih h.2]

theorem lookupKey_delKey_self [DecidableEq κ] (m : List (κ × α)) (k : κ)
    (hnodup : (m.map Prod.fst).Nodup) : lookupKey (delKey m k) k = none := by
  induction m with
  | nil => rfl
  | cons e rest ih =>
    obtain ⟨k1, v1⟩ := e
    simp only [List.map_cons, List.nodup_cons] at hnodup
    by_cases h : k = k1
    · subst h
      simp only [delKey, if_pos rfl]
      exact lookupKey_eq_none_of_not_mem rest k hnodup.1
    · simp [delKey, h, lookupKey, ih hnodup.2]

theorem lookupKey_isSome_of_mem_keys [DecidableEq κ] (m : List (κ × α)) (k : κ)
    (h : k ∈ m.map Prod.fst) : ∃ v, lookupKey m k = some v := by
  induction m with
  | nil => simp at h
  | cons e rest ih =>
    obtain ⟨k1, v1⟩ := e
    by_cases hk : k = k1
    · exact ⟨v1, by simp [lookupKey, hk]⟩
    · simp only [List.map_cons, List.mem_cons] at h
      rcases h with h | h
      · exact absurd h hk
      · obtain ⟨v, hv⟩ := ih h
        exact ⟨v, by simp [lookupKey, hk, hv]⟩

theorem length_insertSorted (s : String) (l : List String) :
    (insertSorted s l).length = l.length + 1 := by
  induction l with
  | nil => rfl
  | cons t ts ih =>
    by_cases h : s ≤ t
    · simp [insertSorted, h]
    · simp [insertSorted, h, ih]

theorem length_sortStrings (l : List String) : (sortStrings l).length = l.length := by
  induction l with
  | nil => rfl
  | cons x xs ih =>
    show (insertSorted x (sortStrings xs)).length = xs.length + 1
    rw [length_insertSorted, ih]

theorem mem_insertSorted (a s : String) (l : List String) :
    a ∈ insertSorted s l ↔ a = s ∨ a ∈ l := by
  induction l with
  | nil => simp [insertSorted]
  | cons t ts ih =>
    by_cases h : s ≤ t
    · simp [insertSorted, h]
    · simp [insertSorted, h, ih]
      tauto

theorem mem_sortStrings (a : String) (l : List String) :
    a ∈ sortStrings l ↔ a ∈ l := by
  induction l with
  | nil => simp [sortStrings]
  | cons x xs ih =>
    show a ∈ insertSorted x (sortStrings xs) ↔ _
    rw [mem_insertSorted, ih]
    simp

theorem sortStrings_ne_nil {l : List String} (h : l ≠ []) : sortStrings l ≠ [] := by
  intro hc
  have := length_sortStrings l
  rw [hc] at this
  exact h (List.length_eq_zero.mp this.symm)

/-! ## Sample values used by concrete checks -/

/-- A minimal quiz. -/
def sampleQuiz : Quiz := { name := "q", questions := [] }

/-- A lobby in the Register state with one registered live player (`"bob"`,
bound to connection 1) who is the owner, plus one unregistered slot
(connection 2). -/
def sampleLobby : Lobby :=
  { id := "ABCDE", owner := "bob", maxPlayers := 25
    quizzes := [("q", sampleQuiz)], quiz := sampleQuiz
    question := none, password := ""
    players := [(some 1, some { username := "bob", answers := none, score := 0, alive := true }),
                (some 2, none)]
    jwtKey := [], created := 0, state := .register, doneClosed := false }

/-- The empty registry. -/
def emptyReg : Registry := { lobbies := [] }

/-- Registration options selecting `sampleQuiz`, with every numeric option
zero. -/
def sampleOpts : LobbyOptions :=
  { owner := "", maxPlayers := 0, quizzes := [("q", sampleQuiz)], jwtSalt := []
    registerTimeout := 0, timeout := 0, password := "" }

/-- An id generator that always mints `"ABCDE"`. -/
def sampleDraws : Nat → String := fun _ => "ABCDE"

/-! ## C1 — Lobby.Close -/

/-- C1 (counterexample): `Close` is not idempotent.  On the sample lobby the
first `Close` succeeds (closing the registered connections and signalling the
done channel); the second `Close` reaches `close(l.doneCh)` with the channel
already closed, which faults (Go panics on closing a closed channel), so a
second call does not "have no further effect and not fail". -/
theorem close_second_call_faults_cex :
    sampleLobby.close = .ok ({ sampleLobby with doneClosed := true }, [1, 2]) ∧
    Lobby.close { sampleLobby with doneClosed := true } = .error "close of closed channel" :=
  ⟨rfl, rfl⟩

/-- C1 (amended): on a lobby whose done channel is not yet closed, `Close`
closes every non-nil connection of the players map with the normal-closure
reason, signals `Done`, and succeeds; but `Close` is not idempotent — any
state in which a first `Close` succeeded makes a second `Close` fault on
closing the already-closed done channel. -/
theorem close_closes_conns_signals_done_not_idempotent (l : Lobby)
    (h : l.doneClosed = false) :
    l.close = .ok ({ l with doneClosed := true }, l.players.filterMap (fun e => e.1)) ∧
    ∀ l1 cs, l.close = .ok (l1, cs) → l1.close = .error "close of closed channel" := by
  constructor
  · simp [Lobby.close, h]
  · intro l1 cs hok
    simp only [Lobby.close, h, Bool.false_eq_true, if_false, Except.ok.injEq, Prod.mk.injEq] at hok
    have hl1 : l1 = { l with doneClosed := true } := hok.1.symm
    subst hl1
    simp [Lobby.close]

/-- C1 (witness): the amended theorem applied to the sample lobby. -/
theorem close_amended_witness :
    sampleLobby.close =
      .ok ({ sampleLobby with doneClosed := true }, sampleLobby.players.filterMap (fun e => e.1)) ∧
    ∀ l1 cs, sampleLobby.close = .ok (l1, cs) →
      l1.close = .error "close of closed channel" :=
  close_closes_conns_signals_done_not_idempotent sampleLobby rfl

/-! ## C10 — Player.RegisterAnswer on a fresh player -/

/-- C10: a player freshly created by `AddPlayerWithConn` carries the nil
answers map (`answers = none`); the first `RegisterAnswer` lazily initialises
the map instead of faulting, and afterwards iterating the answers yields
exactly the registered `(qid, answer)` pair. -/
theorem registerAnswer_on_fresh_player (l : Lobby) (conn : Conn) (u : String)
    (qid : Int) (a : Answer) :
    ∃ p : Player,
      (l.addPlayerWithConn conn u).getPlayerByConn conn = some (some p) ∧
      p.answers = none ∧
      (p.registerAnswer qid a).allAnswers = [(qid, a)] ∧
      lookupKey (p.registerAnswer qid a).allAnswers qid = some a := by
  refine ⟨{ username := u, answers := none, score := 0, alive := true }, ?_, rfl, rfl, ?_⟩
  · exact lookupKey_setKey l.players (some conn) _
  · show lookupKey (setKey [] qid a) qid = some a
    exact lookupKey_setKey [] qid a

/-! ## C7 — registration timeout supervisor -/

/-- C7 (counterexample): registering with `RegisterTimeout = 0` does not yield
a lobby deleted before any client can join — `lobbies.Register` replaces a
zero `RegisterTimeout` with the documented 15-minute default, so the
supervisor spawned for the sample registration waits 15 minutes, not 0. -/
theorem registerTimeout_zero_not_immediate_cex :
    (registerLobby emptyReg sampleOpts sampleDraws 0).2.2 = some fifteenMinutes ∧
    fifteenMinutes ≠ 0 := by
  constructor
  · rfl
  · decide

/-- C7 (amended): a zero `RegisterTimeout` is replaced by the 15-minute
default, so any supervisor spawned by such a registration waits 15 minutes;
and the supervisor, when its timeout fires before the lobby is closed,
deletes the lobby (making it unreachable by `Get`) iff the state is still
Created or Register, and takes no action otherwise. -/
theorem registerTimeout_default_and_supervisor_behavior :
    (∀ (reg : Registry) (opts : LobbyOptions) (draws : Nat → String) (now : Nat),
      opts.registerTimeout = 0 →
      (registerLobby reg opts draws now).2.2 = none ∨
      (registerLobby reg opts draws now).2.2 = some fifteenMinutes) ∧
    (∀ (reg : Registry) (lobby : Lobby),
      lobby.doneClosed = false →
      reg.get lobby.id = some lobby →
      (reg.lobbies.map Prod.fst).Nodup →
      ((lobby.state = .created ∨ lobby.state = .register) →
        ∃ closed, lobbyTimeoutFire reg lobby =
            .ok ({ lobbies := delKey reg.lobbies lobby.id }, closed) ∧
          Registry.get { lobbies := delKey reg.lobbies lobby.id } lobby.id = none) ∧
      (lobby.state ≠ .created → lobby.state ≠ .register →
        lobbyTimeoutFire reg lobby = .ok (reg, []))) := by
  constructor
  · intro reg opts draws now h0
    have h15 : effectiveRegisterTimeout opts.registerTimeout = fifteenMinutes := by
      simp [effectiveRegisterTimeout, h0]
    simp only [registerLobby, h15]
    repeat' split
    all_goals simp
  · intro reg lobby hdone hget hnodup
    have hdel : reg.delete lobby.id =
        .ok ({ lobbies := delKey reg.lobbies lobby.id },
          lobby.players.filterMap (fun e => e.1)) := by
      unfold Registry.delete
      rw [show lookupKey reg.lobbies lobby.id = some lobby from hget]
      simp [Lobby.close, hdone]
    constructor
    · intro hstate
      refine ⟨lobby.players.filterMap (fun e => e.1), ?_, ?_⟩
      · unfold lobbyTimeoutFire
        rcases hstate with h | h <;> simp [hdone, h, hdel]
      · exact lookupKey_delKey_self reg.lobbies lobby.id hnodup
    · intro h1 h2
      unfold lobbyTimeoutFire
      cases hs : lobby.state <;> simp [hdone, hs] at h1 h2 ⊢

/-- A registry holding the sample lobby under its id. -/
def regWithSample : Registry := { lobbies := [("ABCDE", sampleLobby)] }

/-- C7 (witness): both amended conjuncts at concrete inputs — the sample
registration with `RegisterTimeout = 0`, and the supervisor firing on the
sample lobby (state Register) held by a singleton registry. -/
theorem registerTimeout_amended_witness :
    ((registerLobby emptyReg sampleOpts sampleDraws 0).2.2 = none ∨
      (registerLobby emptyReg sampleOpts sampleDraws 0).2.2 = some fifteenMinutes) ∧
    ∃ closed, lobbyTimeoutFire regWithSample sampleLobby =
        .ok ({ lobbies := delKey regWithSample.lobbies sampleLobby.id }, closed) ∧
      Registry.get { lobbies := delKey regWithSample.lobbies sampleLobby.id }
        sampleLobby.id = none :=
  ⟨registerTimeout_default_and_supervisor_behavior.1 emptyReg sampleOpts sampleDraws 0 rfl,
   (registerTimeout_default_and_supervisor_behavior.2 regWithSample sampleLobby rfl rfl
      (by decide)).1 (Or.inr rfl)⟩

/-! ## C9 — id-collision exhaustion leaves the registry unchanged -/

theorem retryIds_exhaust (taken : List String) (draws : Nat → String)
    (hall : ∀ j, draws j ∈ taken) :
    ∀ (r k : Nat) (id : String), id ∈ taken → (retryIds taken draws r k id).2 = 0 := by
  intro r
  induction r with
  | zero => intro k id _; rfl
  | succ n ih =>
    intro k id hid
    simp only [retryIds, if_pos hid]
    exact ih (k + 1) (draws k) (hall k)

/-- C9: when every id draw collides with an existing registry entry (so the 50
retries are exhausted), `Register` returns the no-slot error, the registry is
unchanged, no supervisor is spawned, and `Get` answers exactly as before for
every id — the partially constructed lobby is unreachable. -/
theorem register_collision_exhaustion (reg : Registry) (opts : LobbyOptions)
    (draws : Nat → String) (now : Nat)
    (hq : opts.quizzes ≠ [])
    (hall : ∀ j, draws j ∈ reg.lobbies.map Prod.fst) :
    (registerLobby reg opts draws now).1 = .error "no lobby slot available" ∧
    (registerLobby reg opts draws now).2.1 = reg ∧
    (registerLobby reg opts draws now).2.2 = none ∧
    ∀ id, ((registerLobby reg opts draws now).2.1).get id = reg.get id := by
  have hsort : listQuizzes opts.quizzes ≠ [] := by
    unfold listQuizzes
    apply sortStrings_ne_nil
    simpa using hq
  obtain ⟨n0, ns, hlist⟩ := List.exists_cons_of_ne_nil hsort
  have hn0mem : n0 ∈ opts.quizzes.map Prod.fst := by
    have hmem : n0 ∈ listQuizzes opts.quizzes := by
      rw [hlist]; exact List.mem_cons_self _ _
    unfold listQuizzes at hmem
    rwa [mem_sortStrings] at hmem
  obtain ⟨q, hq0⟩ := lookupKey_isSome_of_mem_keys _ _ hn0mem
  have hretry : (retryIds (reg.lobbies.map Prod.fst) draws 50 1 (draws 0)).2 = 0 :=
    retryIds_exhaust _ _ hall 50 1 (draws 0) (hall 0)
  refine ⟨?_, ?_, ?_, ?_⟩ <;>
    simp [registerLobby, hq, hlist, hq0, hretry]

/-- C9 (witness): the theorem at a singleton registry whose only id is the one
every draw mints. -/
theorem register_collision_witness :
    (registerLobby regWithSample sampleOpts sampleDraws 0).1 =
      .error "no lobby slot available" ∧
    (registerLobby regWithSample sampleOpts sampleDraws 0).2.1 = regWithSample ∧
    (registerLobby regWithSample sampleOpts sampleDraws 0).2.2 = none ∧
    ∀ id, ((registerLobby regWithSample sampleOpts sampleDraws 0).2.1).get id =
      regWithSample.get id :=
  register_collision_exhaustion regWithSample sampleOpts sampleDraws 0 (by decide)
    (fun j => by simp [sampleDraws, regWithSample])

/-! ## C2 — token round trip and the per-lobby key derivation -/

theorem hexDigit_inj16 : ∀ a, a < 16 → ∀ b, b < 16 → hexDigit a = hexDigit b → a = b := by
  decide

theorem hexBytes_cons (x : Nat) (xs : List Nat) :
    hexBytes (x :: xs) = hexDigit (x / 16) :: hexDigit (x % 16) :: hexBytes xs := rfl

theorem hexBytes_injOn : ∀ xs ys : List Nat, (∀ b ∈ xs, b < 256) → (∀ b ∈ ys, b < 256) →
    hexBytes xs = hexBytes ys → xs = ys := by
  intro xs
  induction xs with
  | nil =>
    intro ys _ _ h
    cases ys with
    | nil => rfl
    | cons y ys => simp [hexBytes_cons, hexBytes] at h
  | cons x xs ih =>
    intro ys hx hy h
    cases ys with
    | nil => simp [hexBytes_cons, hexBytes] at h
    | cons y ys =>
      rw [hexBytes_cons, hexBytes_cons] at h
      have hx0 : x < 256 := hx x (List.mem_cons_self _ _)
      have hy0 : y < 256 := hy y (List.mem_cons_self _ _)
      have hdivlt : x / 16 < 16 := Nat.div_lt_of_lt_mul (by omega)
      have hdivlt2 : y / 16 < 16 := Nat.div_lt_of_lt_mul (by omega)
      have h1 : hexDigit (x / 16) = hexDigit (y / 16) := by
        exact (List.cons.injEq _ _ _ _ ▸ h).1
      have h2 : hexDigit (x % 16) = hexDigit (y % 16) := by
        have := (List.cons.injEq _ _ _ _ ▸ h).2
        exact (List.cons.injEq _ _ _ _ ▸ this).1
      have h3 : hexBytes xs = hexBytes ys := by
        have := (List.cons.injEq _ _ _ _ ▸ h).2
        exact (List.cons.injEq _ _ _ _ ▸ this).2
      have hdiv : x / 16 = y / 16 := hexDigit_inj16 _ hdivlt _ hdivlt2 h1
      have hmod : x % 16 = y % 16 :=
        hexDigit_inj16 _ (Nat.mod_lt _ (by omega)) _ (Nat.mod_lt _ (by omega)) h2
      have hxy : x = y := by omega
      rw [hxy, ih ys (fun b hb => hx b (List.mem_cons_of_mem _ hb))
        (fun b hb => hy b (List.mem_cons_of_mem _ hb)) h3]

theorem decBytes_eq_singleton48 (n : Nat) (h : decBytes n = [48]) : n = 0 := by
  by_cases hn : n = 0
  · exact hn
  exfalso
  unfold decBytes at h
  rw [if_neg hn] at h
  rcases hrev : (Nat.digits 10 n).reverse with _ | ⟨d, ds⟩
  · rw [hrev] at h
    simp at h
  · rw [hrev] at h
    simp only [List.map_cons, List.cons.injEq] at h
    have hd0 : d = 0 := by omega
    have hds0 : ds = [] := List.map_eq_nil_iff.mp h.2
    have hdig : Nat.digits 10 n = [0] := by
      have := congrArg List.reverse hrev
      simpa [hd0, hds0] using this
    have := congrArg (Nat.ofDigits 10) hdig
    rw [Nat.ofDigits_digits] at this
    simp [Nat.ofDigits] at this
    exact hn this

theorem decBytes_injective : ∀ m n : Nat, decBytes m = decBytes n → m = n := by
  have key : ∀ n : Nat, n ≠ 0 →
      ∀ m : Nat, m ≠ 0 → decBytes m = decBytes n → m = n := by
    intro n hn m hm h
    unfold decBytes at h
    rw [if_neg hm, if_neg hn] at h
    have hmap : (Nat.digits 10 m).reverse = (Nat.digits 10 n).reverse :=
      List.map_injective_iff.mpr (fun a b hab => by omega) h
    have hdig : Nat.digits 10 m = Nat.digits 10 n :=
      List.reverse_injective hmap
    have := congrArg (Nat.ofDigits 10) hdig
    rwa [Nat.ofDigits_digits, Nat.ofDigits_digits] at this
  intro m n h
  by_cases hm : m = 0 <;> by_cases hn : n = 0
  · omega
  · subst hm
    have : decBytes n = [48] := by
      rw [← h]; rfl
    exact ((hn (decBytes_eq_singleton48 n this)).elim)
  · subst hn
    have : decBytes m = [48] := by
      rw [h]; rfl
    exact decBytes_eq_singleton48 m this
  · exact key n hn m hm h

theorem decBytes_lt256 (n : Nat) : ∀ b ∈ decBytes n, b < 256 := by
  intro b hb
  unfold decBytes at hb
  by_cases hn : n = 0
  · rw [if_pos hn] at hb
    simp at hb
    omega
  · rw [if_neg hn] at hb
    simp only [List.mem_map, List.mem_reverse] at hb
    obtain ⟨d, hd, hbd⟩ := hb
    have : d < 10 := Nat.digits_lt_base (by omega) hd
    omega

theorem newLobbyTokenKey_created_injective (salt : List Nat) (id : String)
    (hs : ∀ b ∈ salt, b < 256) (hid : ∀ b ∈ strBytes id, b < 256)
    (c1 c2 : Nat) (h : newLobbyTokenKey salt id c1 = newLobbyTokenKey salt id c2) :
    c1 = c2 := by
  unfold newLobbyTokenKey at h
  have hbound : ∀ c : Nat, ∀ b ∈ salt ++ strBytes id ++ decBytes c, b < 256 := by
    intro c b hb
    rcases List.mem_append.mp hb with hb | hb
    · rcases List.mem_append.mp hb with hb | hb
      · exact hs b hb
      · exact hid b hb
    · exact decBytes_lt256 c b hb
  have happ := hexBytes_injOn _ _ (hbound c1) (hbound c2) h
  rw [List.append_assoc, List.append_assoc] at happ
  have hdec : decBytes c1 = decBytes c2 :=
    List.append_cancel_left (List.append_cancel_left happ)
  exact decBytes_injective c1 c2 hdec

/-- C2: for every lobby and username, `CheckToken(NewToken(u))` on the same
lobby succeeds with claims `username = u` and `lobbyId = l.id`; and because
the signing key is `hex(salt ∥ id ∥ createdUnixSeconds)`, two lobbies sharing
a recycled id but distinct creation times have distinct keys, so — for any MAC
that separates distinct keys (the HMAC-SHA256 assumption) — a token minted by
the earlier lobby is rejected by the later one. -/
theorem token_roundtrip_and_recycled_id_rejected {Sig : Type} [DecidableEq Sig]
    (mac : List Nat → String → Sig) :
    (∀ (l : Lobby) (u : String),
      l.checkToken mac (l.newToken mac u) = .ok { lobbyId := l.id, username := u }) ∧
    (∀ (salt : List Nat) (l1 l2 : Lobby) (u : String),
      (∀ b ∈ salt, b < 256) → (∀ b ∈ strBytes l1.id, b < 256) →
      l2.id = l1.id →
      l1.jwtKey = newLobbyTokenKey salt l1.id l1.created →
      l2.jwtKey = newLobbyTokenKey salt l2.id l2.created →
      l1.created ≠ l2.created →
      (∀ (m : String) (k1 k2 : List Nat), k1 ≠ k2 → mac k1 m ≠ mac k2 m) →
      l2.checkToken mac (l1.newToken mac u) = .error "signature is invalid") := by
  constructor
  · intro l u
    simp [Lobby.checkToken, Lobby.newToken]
  · intro salt l1 l2 u hsalt hid hideq hk1 hk2 hcreated hmac
    have hkeys : l1.jwtKey ≠ l2.jwtKey := by
      rw [hk1, hk2, hideq]
      intro hc
      exact hcreated (newLobbyTokenKey_created_injective salt l1.id hsalt hid _ _ hc)
    have hsig : mac l1.jwtKey (claimsPayload { lobbyId := l1.id, username := u }) ≠
        mac l2.jwtKey (claimsPayload { lobbyId := l1.id, username := u }) :=
      hmac _ _ _ hkeys
    simp only [Lobby.checkToken, Lobby.newToken]
    rw [if_neg (by simp)]
    rw [if_pos (by simpa using hsig)]

/-- The pairing MAC used to witness the abstract-MAC hypotheses: it returns
the pair (key, message) and therefore separates distinct keys. -/
def pairMac : List Nat → String → List Nat × String := fun k m => (k, m)

/-- A lobby (`created = 0`) whose key follows `newLobbyTokenKey`. -/
def tokenLobby1 : Lobby :=
  { sampleLobby with
    id := "AB"
    created := 0
    jwtKey := newLobbyTokenKey [1] "AB" 0 }

/-- A lobby recycling the id `"AB"` at a later creation time. -/
def tokenLobby2 : Lobby :=
  { sampleLobby with
    id := "AB"
    created := 7
    jwtKey := newLobbyTokenKey [1] "AB" 7 }

/-- C2 (witness): round trip on `tokenLobby1` and rejection by `tokenLobby2`
of a token minted by `tokenLobby1`, under the pairing MAC. -/
theorem token_roundtrip_witness :
    tokenLobby1.checkToken pairMac (tokenLobby1.newToken pairMac "alice") =
      .ok { lobbyId := "AB", username := "alice" } ∧
    tokenLobby2.checkToken pairMac (tokenLobby1.newToken pairMac "alice") =
      .error "signature is invalid" :=
  ⟨(token_roundtrip_and_recycled_id_rejected pairMac).1 tokenLobby1 "alice",
   (token_roundtrip_and_recycled_id_rejected pairMac).2 [1] tokenLobby1 tokenLobby2
     "alice" (by decide) (by decide) rfl rfl rfl (by decide)
     (fun m k1 k2 hne hc => hne (congrArg Prod.fst hc))⟩

/-! ## C4 — quiz scheduler -/

/-- C4: when no iteration observes the Ended state, the scheduler's run is
exactly the spec's per-question playback — in list order: answer stripped from
the outgoing payload, non-positive time defaulted to 30 s, the question made
current before its broadcast, then a wait until the absolute deadline
`start + q.time` — followed by clearing the current question and setting the
state to `LobbyStateAnswers` (the spec's Review); moreover every broadcast
question has its canonical answer removed and a positive time. -/
theorem scheduler_runs_spec_playback (ended : Nat → Bool) (h : ∀ i, ended i = false) :
    ∀ (qs : List Question) (i : Nat) (t : Int),
      runScheduler ended i t qs =
        specQuestionEvents t qs ++ [.setCurrent none, .newState .answers] ∧
      ∀ q, SchedEvent.broadcastQuestion q ∈ runScheduler ended i t qs →
        q.answer = none ∧ 0 < q.time := by
  intro qs
  induction qs with
  | nil =>
    intro i t
    constructor
    · simp [runScheduler, specQuestionEvents]
    · intro q hq
      simp [runScheduler] at hq
  | cons qh qt ih =>
    intro i t
    have hrw : runScheduler ended i t (qh :: qt) =
        SchedEvent.setCurrent (some (playbackQuestion qh)) ::
          SchedEvent.broadcastQuestion (playbackQuestion qh) ::
          SchedEvent.waitUntil (t + (playbackQuestion qh).time) ::
          runScheduler ended (i + 1) (t + (playbackQuestion qh).time) qt := by
      simp [runScheduler, h i]
    constructor
    · rw [hrw, (ih (i + 1) (t + (playbackQuestion qh).time)).1]
      simp [specQuestionEvents, playbackQuestion]
    · intro q hq
      rw [hrw] at hq
      simp only [List.mem_cons] at hq
      rcases hq with hq | hq | hq | hq
      · exact absurd hq (by simp)
      · have hqe : q = playbackQuestion qh := by simpa using hq
        subst hqe
        refine ⟨rfl, ?_⟩
        show (0 : Int) < (if qh.time ≤ 0 then thirtySeconds else qh.time)
        by_cases ht : qh.time ≤ 0
        · rw [if_pos ht]
          norm_num [thirtySeconds]
        · rw [if_neg ht]
          exact lt_of_not_le ht
      · exact absurd hq (by simp)
      · exact (ih (i + 1) (t + (playbackQuestion qh).time)).2 q hq

/-- A predicate that never observes Ended. -/
def constFalse : Nat → Bool := fun _ => false

/-- A concrete answer. -/
def sampleAnswer : Answer := { x := 0, y := 0, text := "a", choices := [], order := [] }

/-- A concrete question with unset time and a canonical answer. -/
def sampleQuestion : Question :=
  { id := 0, title := "t", qtype := "text", time := 0, medias := [], choices := []
    orderItems := [], categories := [], options := none, answer := some sampleAnswer }

/-- C4 (witness): the theorem at a one-question list. -/
theorem scheduler_witness :
    runScheduler constFalse 0 0 [sampleQuestion] =
      specQuestionEvents 0 [sampleQuestion] ++
        [SchedEvent.setCurrent none, SchedEvent.newState .answers] ∧
    ∀ q, SchedEvent.broadcastQuestion q ∈ runScheduler constFalse 0 0 [sampleQuestion] →
      q.answer = none ∧ 0 < q.time :=
  scheduler_runs_spec_playback constFalse (fun _ => rfl) [sampleQuestion] 0 0

/-! ## C3 — start request -/

theorem mem_closeUnregisteredConns (l : Lobby) (c : Conn) :
    c ∈ l.closeUnregisteredConns ↔ (some c, none) ∈ l.players := by
  unfold Lobby.closeUnregisteredConns
  rw [List.mem_filterMap]
  constructor
  · rintro ⟨⟨oc, op⟩, hmem, hf⟩
    rcases oc with _ | c1 <;> rcases op with _ | p <;> simp at hf
    subst hf
    exact hmem
  · intro hmem
    exact ⟨(some c, none), hmem, rfl⟩

theorem mem_broadcastStartMsgs {Sig : Type} (mac : List Nat → String → Sig)
    (l : Lobby) (c : Conn) (tok : Token Sig) :
    (c, tok) ∈ l.broadcastStartMsgs mac ↔
      ∃ p, (some c, some p) ∈ l.players ∧ tok = l.newToken mac p.username := by
  unfold Lobby.broadcastStartMsgs
  rw [List.mem_filterMap]
  constructor
  · rintro ⟨⟨oc, op⟩, hmem, hf⟩
    rcases oc with _ | c1 <;> rcases op with _ | p <;> simp at hf
    obtain ⟨hc, htok⟩ := hf
    subst hc
    exact ⟨p, hmem, htok.symm⟩
  · rintro ⟨p, hmem, htok⟩
    exact ⟨(some c, some p), hmem, by simp [htok]⟩

/-- C3: a well-formed start request is answered with the unauthorized error
exactly when the sender's connection is not bound to the player whose username
is the lobby owner; on success the questions' ids become their indices (other
fields unchanged), the state becomes Quiz, the connections closed are exactly
those whose player slot is nil, and the start broadcast delivers to each
registered recipient a token minted by `NewToken` with that recipient's own
username. -/
theorem start_request_behavior {Sig : Type} [DecidableEq Sig]
    (mac : List Nat → String → Sig) :
    (∀ (l : Lobby) (conn : Conn),
      (l.getPlayerByConn conn = none ∨ l.getPlayerByConn conn = some none ∨
        (∃ p, l.getPlayerByConn conn = some (some p) ∧ p.username ≠ l.owner)) ↔
      handleStartRequest mac l conn true = .error .unauthorized) ∧
    (∀ (l : Lobby) (conn : Conn) (p : Player),
      l.getPlayerByConn conn = some (some p) → p.username = l.owner →
      ∃ l1, handleStartRequest mac l conn true =
          .ok (l1, l1.closeUnregisteredConns, l1.broadcastStartMsgs mac) ∧
        l1.state = .quiz ∧
        l1.players = l.players ∧
        l1.quiz.questions.length = l.quiz.questions.length ∧
        (∀ i (hi : i < l.quiz.questions.length) (hi1 : i < l1.quiz.questions.length),
          l1.quiz.questions.get ⟨i, hi1⟩ =
            { l.quiz.questions.get ⟨i, hi⟩ with id := (i : Int) }) ∧
        (∀ c, c ∈ l1.closeUnregisteredConns ↔ (some c, none) ∈ l.players) ∧
        (∀ c tok, (c, tok) ∈ l1.broadcastStartMsgs mac ↔
          ∃ p2, (some c, some p2) ∈ l.players ∧ tok = l.newToken mac p2.username ∧
            tok.claims.username = p2.username)) := by
  constructor
  · intro l conn
    constructor
    · intro hcase
      rcases hcase with hc | hc | ⟨p, hc, hne⟩
      · simp [handleStartRequest, hc]
      · simp [handleStartRequest, hc]
      · simp [handleStartRequest, hc, hne]
    · intro herr
      rcases hlook : l.getPlayerByConn conn with _ | op
      · exact Or.inl rfl
      · rcases op with _ | p
        · exact Or.inr (Or.inl rfl)
        · by_cases hu : p.username = l.owner
          · exfalso
            simp [handleStartRequest, hlook, hu] at herr
          · exact Or.inr (Or.inr ⟨p, rfl, hu⟩)
  · intro l conn p hlook hu
    refine ⟨(l.setQuiz { l.quiz with questions := l.quiz.questions.mapIdx fun i qq => { qq with id := (i : Int) } }).setState .quiz, ?_, rfl, rfl, ?_, ?_, ?_, ?_⟩
    · simp [handleStartRequest, hlook, hu]
    · simp [Lobby.setQuiz, Lobby.setState]
    · intro i hi hi1
      simp [Lobby.setQuiz, Lobby.setState, List.get_eq_getElem]
    · intro c
      exact mem_closeUnregisteredConns _ c
    · intro c tok
      rw [mem_broadcastStartMsgs]
      constructor
      · rintro ⟨p2, hmem, htok⟩
        exact ⟨p2, hmem, htok, by rw [htok]; rfl⟩
      · rintro ⟨p2, hmem, htok, _⟩
        exact ⟨p2, hmem, htok⟩

/-- C3 (witness): on the sample lobby, the non-owner connection 2 is refused
and the owner connection 1 succeeds. -/
theorem start_request_witness :
    ((sampleLobby.getPlayerByConn 2 = none ∨
        sampleLobby.getPlayerByConn 2 = some none ∨
        (∃ p, sampleLobby.getPlayerByConn 2 = some (some p) ∧
          p.username ≠ sampleLobby.owner)) ↔
      handleStartRequest pairMac sampleLobby 2 true = .error .unauthorized) ∧
    ∃ l1, handleStartRequest pairMac sampleLobby 1 true =
        .ok (l1, l1.closeUnregisteredConns, l1.broadcastStartMsgs pairMac) ∧
      l1.state = .quiz ∧
      l1.players = sampleLobby.players ∧
      l1.quiz.questions.length = sampleLobby.quiz.questions.length ∧
      (∀ i (hi : i < sampleLobby.quiz.questions.length)
          (hi1 : i < l1.quiz.questions.length),
        l1.quiz.questions.get ⟨i, hi1⟩ =
          { sampleLobby.quiz.questions.get ⟨i, hi⟩ with id := (i : Int) }) ∧
      (∀ c, c ∈ l1.closeUnregisteredConns ↔ (some c, none) ∈ sampleLobby.players) ∧
      (∀ c tok, (c, tok) ∈ l1.broadcastStartMsgs pairMac ↔
        ∃ p2, (some c, some p2) ∈ sampleLobby.players ∧
          tok = sampleLobby.newToken pairMac p2.username ∧
          tok.claims.username = p2.username) :=
  ⟨(start_request_behavior pairMac).1 sampleLobby 2,
   (start_request_behavior pairMac).2 sampleLobby 1
     { username := "bob", answers := none, score := 0, alive := true } (by decide) rfl⟩

/-! ## C6 — owner disconnect during Register -/

/-- C6: when the connection of the lobby owner's player closes while the lobby
is in Register, the player slot is removed and a `disconnect` update is
broadcast first; then, if the sorted list of remaining live players is
non-empty, its first entry becomes the new owner and a `new owner` update is
broadcast, and if it is empty the lobby is deleted from the registry. -/
theorem owner_disconnect_register (reg : Registry) (l : Lobby) (conn : Conn)
    (p : Player)
    (hstate : l.state = .register)
    (hp : l.getPlayerByConn conn = some (some p))
    (howner : l.owner = p.username)
    (hreg : reg.get l.id = some l)
    (hnodup : (reg.lobbies.map Prod.fst).Nodup)
    (hdone : l.doneClosed = false) :
    ∃ res, handleDisconnect reg l conn = .ok res ∧
      res.lobby.players = delKey l.players (some conn) ∧
      ((l.deletePlayerByConn conn).getPlayerList = [] →
        res.broadcasts = [(p.username, "disconnect")] ∧
        res.lobbyDeleted = true ∧
        res.registry.get l.id = none) ∧
      (∀ newOwner rest, (l.deletePlayerByConn conn).getPlayerList = newOwner :: rest →
        res.broadcasts = [(p.username, "disconnect"), (newOwner, "new owner")] ∧
        res.lobbyDeleted = false ∧
        res.lobby.owner = newOwner ∧
        res.registry = reg) := by
  have hdel : reg.delete l.id =
      .ok ({ lobbies := delKey reg.lobbies l.id },
        l.players.filterMap (fun e => e.1)) := by
    unfold Registry.delete
    rw [show lookupKey reg.lobbies l.id = some l from hreg]
    simp [Lobby.close, hdone]
  rcases hlist : (l.deletePlayerByConn conn).getPlayerList with _ | ⟨newOwner, rest⟩
  · refine ⟨⟨{ lobbies := delKey reg.lobbies l.id }, l.deletePlayerByConn conn,
      [(p.username, "disconnect")], true⟩, ?_, rfl, ?_, ?_⟩
    · simp [handleDisconnect, hstate, hp, howner, hlist, hdel]
    · intro _
      exact ⟨rfl, rfl, lookupKey_delKey_self reg.lobbies l.id hnodup⟩
    · intro o r ho
      cases ho
  · refine ⟨⟨reg, (l.deletePlayerByConn conn).setOwner newOwner,
      [(p.username, "disconnect"), (newOwner, "new owner")], false⟩, ?_, rfl, ?_, ?_⟩
    · simp [handleDisconnect, hstate, hp, howner, hlist, hdel]
    · intro h0
      cases h0
    · intro o r ho
      cases ho
      exact ⟨rfl, rfl, rfl, rfl⟩

/-- C6 (witness): disconnecting the owner `"bob"` (connection 1) of the sample
lobby held in a singleton registry — no other live player remains, so the
lobby is deleted. -/
theorem owner_disconnect_witness :
    ∃ res, handleDisconnect regWithSample sampleLobby 1 = .ok res ∧
      res.lobby.players = delKey sampleLobby.players (some 1) ∧
      ((sampleLobby.deletePlayerByConn 1).getPlayerList = [] →
        res.broadcasts = [("bob", "disconnect")] ∧
        res.lobbyDeleted = true ∧
        res.registry.get sampleLobby.id = none) ∧
      (∀ newOwner rest,
        (sampleLobby.deletePlayerByConn 1).getPlayerList = newOwner :: rest →
        res.broadcasts = [("bob", "disconnect"), (newOwner, "new owner")] ∧
        res.lobbyDeleted = false ∧
        res.lobby.owner = newOwner ∧
        res.registry = regWithSample) :=
  owner_disconnect_register regWithSample sampleLobby 1
    { username := "bob", answers := none, score := 0, alive := true }
    rfl (by decide) rfl rfl (by decide) rfl

/-! ## C8 — rate limiter window invariant -/

/-- The fresh limiter of `NewLimiter(10, 1)` used by the counterexample. -/
def cexLimiter : Limiter := { window := 10, limit := 1, history := [] }

/-- C8 (counterexample): the claimed invariant fails over `Wait`.  From a
fresh `(window = 10, limit = 1)` limiter, `Allow` at instant 0 admits and
records 0; `Wait` entered at instant 0 computes `next = history[0] + window =
10`, blocks until then, and appends the fire-time 10 to the stored (un-slid)
history.  At instant 10 both records 0 and 10 lie within `[now − window, now]
= [0, 10]` (`slide` evicts only records strictly before the cutoff), so the
in-window count is 2 > limit = 1. -/
theorem limiter_wait_exceeds_limit_cex :
    (runOps cexLimiter [(.allow, 0), (.wait, 0)]).liveCount 10 = 2 ∧
    ¬ (runOps cexLimiter [(.allow, 0), (.wait, 0)]).liveCount 10 ≤ cexLimiter.limit := by
  decide

theorem dropWhile_lt_eq_filter_of_sorted (c : Int) :
    ∀ h : List Int, h.Sorted (· ≤ ·) →
      h.dropWhile (fun t => decide (t < c)) = h.filter (fun t => decide (c ≤ t)) := by
  intro h
  induction h with
  | nil => intro _; rfl
  | cons a t ih =>
    intro hs
    have ha : ∀ x ∈ t, a ≤ x := (List.sorted_cons.mp hs).1
    have ht : t.Sorted (· ≤ ·) := (List.sorted_cons.mp hs).2
    by_cases hac : a < c
    · have hnc : ¬ c ≤ a := not_le.mpr hac
      simp only [List.dropWhile_cons, List.filter_cons, decide_eq_true_eq]
      rw [if_pos hac, if_neg hnc]
      exact ih ht
    · have hca : c ≤ a := not_lt.mp hac
      simp only [List.dropWhile_cons, List.filter_cons, decide_eq_true_eq]
      rw [if_neg hac, if_pos hca]
      rw [List.filter_eq_self.mpr (fun x hx => decide_eq_true (le_trans hca (ha x hx)))]

theorem slide_eq_filter (l : Limiter) (now : Int) (hs : l.history.Sorted (· ≤ ·)) :
    l.slide now = l.history.filter (fun t => decide (now - l.window ≤ t)) :=
  dropWhile_lt_eq_filter_of_sorted (now - l.window) l.history hs

/-- The invariant carried between limiter calls: the stored history is sorted,
bounded by the clock reading `T` of the last call, and holds at most `limit`
records at or after `T - window`. -/
def LimInv (l : Limiter) (T : Int) : Prop :=
  l.history.Sorted (· ≤ ·) ∧ (∀ t ∈ l.history, t ≤ T) ∧
    (l.history.filter (fun t => decide (T - l.window ≤ t))).length ≤ l.limit

theorem filter_length_mono (h : List Int) (c c2 : Int) (hcc : c ≤ c2) :
    (h.filter (fun t => decide (c2 ≤ t))).length ≤
      (h.filter (fun t => decide (c ≤ t))).length := by
  rw [← List.countP_eq_length_filter, ← List.countP_eq_length_filter]
  exact List.countP_mono_left
    (fun x _ hp => decide_eq_true (le_trans hcc (of_decide_eq_true hp)))

theorem LimInv.mono {l : Limiter} {T T2 : Int} (h : LimInv l T) (hTT : T ≤ T2) :
    LimInv l T2 :=
  ⟨h.1, fun t ht => le_trans (h.2.1 t ht) hTT,
    le_trans (filter_length_mono l.history (T - l.window) (T2 - l.window)
      (sub_le_sub_right hTT _)) h.2.2⟩

theorem liveCount_le_of_inv (l : Limiter) (T now : Int) (hTn : T ≤ now)
    (h : LimInv l T) : l.liveCount now ≤ l.limit := by
  unfold Limiter.liveCount
  rw [← List.countP_eq_length_filter]
  refine le_trans ?_ h.2.2
  rw [← List.countP_eq_length_filter]
  refine List.countP_mono_left (fun x _ hp => ?_)
  simp only [Bool.and_eq_true, decide_eq_true_eq] at hp
  exact decide_eq_true (le_trans (sub_le_sub_right hTn _) hp.1)

theorem allow_window (l : Limiter) (now : Int) : (l.allow now).2.window = l.window := by
  by_cases hc : l.limit ≤ (l.slide now).length <;> simp [Limiter.allow, hc]

theorem allow_limit (l : Limiter) (now : Int) : (l.allow now).2.limit = l.limit := by
  by_cases hc : l.limit ≤ (l.slide now).length <;> simp [Limiter.allow, hc]

theorem wait_window (l : Limiter) (now : Int) : (l.wait now).1.window = l.window := by
  by_cases h1 : l.history.length < l.limit
  · simp [Limiter.wait, h1]
  · rcases hs : l.slide now with _ | ⟨t0, rest⟩
    · simp [Limiter.wait, h1, hs]
    · simp only [Limiter.wait, h1, if_false, hs]
      split <;> rfl

theorem wait_limit (l : Limiter) (now : Int) : (l.wait now).1.limit = l.limit := by
  by_cases h1 : l.history.length < l.limit
  · simp [Limiter.wait, h1]
  · rcases hs : l.slide now with _ | ⟨t0, rest⟩
    · simp [Limiter.wait, h1, hs]
    · simp only [Limiter.wait, h1, if_false, hs]
      split <;> rfl

theorem runOps_window_limit : ∀ (ops : List (RLOp × Int)) (l : Limiter),
    (runOps l ops).window = l.window ∧ (runOps l ops).limit = l.limit := by
  intro ops
  induction ops with
  | nil => exact fun l => ⟨rfl, rfl⟩
  | cons op rest ih =>
    intro l
    obtain ⟨o, t⟩ := op
    cases o with
    | allow =>
      obtain ⟨hw, hl⟩ := ih (l.allow t).2
      exact ⟨by rw [runOps, hw, allow_window], by rw [runOps, hl, allow_limit]⟩
    | slots => exact ih l
    | wait =>
      obtain ⟨hw, hl⟩ := ih (l.wait t).1
      exact ⟨by rw [runOps, hw, wait_window], by rw [runOps, hl, wait_limit]⟩

theorem allow_preserves_inv (l : Limiter) (T now : Int) (h0w : 0 ≤ l.window)
    (hTn : T ≤ now) (hinv : LimInv l T) : LimInv ((l.allow now).2) now := by
  obtain ⟨hs, hup, hcount⟩ := hinv
  have hsf : l.slide now = l.history.filter (fun t => decide (now - l.window ≤ t)) :=
    slide_eq_filter l now hs
  have hs2 : (l.slide now).Sorted (· ≤ ·) :=
    List.Pairwise.sublist (List.dropWhile_sublist _) hs
  have hsub : ∀ t ∈ l.slide now, t ∈ l.history :=
    fun t ht => (List.dropWhile_sublist _).subset ht
  have hup2 : ∀ t ∈ l.slide now, t ≤ now :=
    fun t ht => le_trans (hup t (hsub t ht)) hTn
  have hlen : (l.slide now).length ≤ l.limit := by
    rw [hsf]
    exact le_trans
      (filter_length_mono l.history (T - l.window) (now - l.window) (sub_le_sub_right hTn _))
      hcount
  have hfs : (l.slide now).filter (fun t => decide (now - l.window ≤ t)) = l.slide now := by
    rw [hsf]
    exact List.filter_eq_self.mpr (fun a ha => (List.mem_filter.mp ha).2)
  simp only [Limiter.allow]
  by_cases hc : l.limit ≤ (l.slide now).length
  · rw [if_pos hc]
    exact ⟨hs2, hup2, by rw [show ({ l with history := l.slide now } : Limiter).history =
      l.slide now from rfl]; rw [hfs]; exact hlen⟩
  · rw [if_neg hc]
    refine ⟨?_, ?_, ?_⟩
    · show ((l.slide now) ++ [now]).Pairwise (· ≤ ·)
      rw [List.pairwise_append]
      refine ⟨hs2, List.pairwise_singleton _ _, fun a ha b hb => ?_⟩
      rw [List.mem_singleton] at hb
      subst hb
      exact hup2 a ha
    · intro t ht
      rcases List.mem_append.mp ht with ht | ht
      · exact hup2 t ht
      · rw [List.mem_singleton] at ht
        exact le_of_eq ht
    · show (((l.slide now) ++ [now]).filter (fun t => decide (now - l.window ≤ t))).length ≤ l.limit
      rw [List.filter_append, hfs]
      have hn : ([now] : List Int).filter (fun t => decide (now - l.window ≤ t)) = [now] :=
        List.filter_eq_self.mpr (fun a ha => by
          rw [List.mem_singleton] at ha
          subst ha
          exact decide_eq_true (sub_le_self _ h0w))
      rw [hn, List.length_append, List.length_singleton]
      omega

theorem runOps_inv : ∀ (ops : List (RLOp × Int)) (l : Limiter) (T : Int),
    0 ≤ l.window → LimInv l T →
    RLOp.wait ∉ ops.map Prod.fst →
    List.Chain' (· ≤ ·) (T :: ops.map Prod.snd) →
    ∃ T2, T ≤ T2 ∧ (T2 = T ∨ T2 ∈ ops.map Prod.snd) ∧
      (∀ t ∈ ops.map Prod.snd, t ≤ T2) ∧ LimInv (runOps l ops) T2 := by
  intro ops
  induction ops with
  | nil =>
    intro l T h0w hinv _ _
    exact ⟨T, le_refl T, Or.inl rfl, by simp, hinv⟩
  | cons op rest ih =>
    intro l T h0w hinv hnw hchain
    obtain ⟨o, t⟩ := op
    have hmap : ((o, t) :: rest).map Prod.snd = t :: rest.map Prod.snd := rfl
    rw [hmap] at hchain
    have hTt : T ≤ t := (List.chain'_cons.mp hchain).1
    have hchain2 : List.Chain' (· ≤ ·) (t :: rest.map Prod.snd) :=
      (List.chain'_cons.mp hchain).2
    have hnw2 : RLOp.wait ∉ rest.map Prod.fst := by
      intro hc
      exact hnw (List.mem_cons_of_mem _ hc)
    cases o with
    | allow =>
      have hinv2 : LimInv ((l.allow t).2) t := allow_preserves_inv l T t h0w hTt hinv
      have h0w2 : 0 ≤ (l.allow t).2.window := by rw [allow_window]; exact h0w
      obtain ⟨T2, hT2, hT2mem, htimes, hfin⟩ := ih (l.allow t).2 t h0w2 hinv2 hnw2 hchain2
      refine ⟨T2, le_trans hTt hT2, ?_, ?_, hfin⟩
      · rcases hT2mem with h | h
        · exact Or.inr (by rw [hmap, h]; exact List.mem_cons_self _ _)
        · exact Or.inr (by rw [hmap]; exact List.mem_cons_of_mem _ h)
      · intro t2 ht2
        rw [hmap] at ht2
        rcases List.mem_cons.mp ht2 with h | h
        · exact h ▸ hT2
        · exact htimes t2 h
    | slots =>
      have hinv2 : LimInv l t := hinv.mono hTt
      obtain ⟨T2, hT2, hT2mem, htimes, hfin⟩ := ih l t h0w hinv2 hnw2 hchain2
      refine ⟨T2, le_trans hTt hT2, ?_, ?_, hfin⟩
      · rcases hT2mem with h | h
        · exact Or.inr (by rw [hmap, h]; exact List.mem_cons_self _ _)
        · exact Or.inr (by rw [hmap]; exact List.mem_cons_of_mem _ h)
      · intro t2 ht2
        rw [hmap] at ht2
        rcases List.mem_cons.mp ht2 with h | h
        · exact h ▸ hT2
        · exact htimes t2 h
    | wait =>
      exact absurd (List.mem_cons_self _ _) hnw

/-- C8 (amended): for every sequence of `Allow` and `Slots` calls at
nondecreasing clock readings on a fresh limiter with a non-negative window,
the number of recorded timestamps within `[now − window, now]` never exceeds
`limit` (for any instant `now` at or after the last call); and `Allow` evicts
the records older than `window` before its check and appends the current
timestamp exactly when it admits.  (`Wait` is excluded: as the counterexample
shows, its fire-time append can leave `limit + 1` records in the window.) -/
theorem limiter_allow_slots_invariant (window : Int) (limit : Nat)
    (h0w : 0 ≤ window) (ops : List (RLOp × Int))
    (hnw : RLOp.wait ∉ ops.map Prod.fst)
    (hchain : List.Chain' (· ≤ ·) (ops.map Prod.snd))
    (now : Int) (hnow : ∀ t ∈ ops.map Prod.snd, t ≤ now) :
    (runOps { window := window, limit := limit, history := [] } ops).liveCount now ≤ limit ∧
    ∀ (l : Limiter) (t : Int),
      ((l.allow t).1 = true ↔ (l.slide t).length < l.limit) ∧
      (l.allow t).2.history =
        (if l.limit ≤ (l.slide t).length then l.slide t else l.slide t ++ [t]) := by
  constructor
  · cases ops with
    | nil =>
      show (({ window := window, limit := limit, history := [] } : Limiter)).liveCount now ≤ limit
      unfold Limiter.liveCount
      simp
    | cons op rest =>
      obtain ⟨o, t0⟩ := op
      have hinv0 : LimInv { window := window, limit := limit, history := [] } t0 :=
        ⟨List.sorted_nil, by simp, by simp⟩
      have hmap : ((o, t0) :: rest).map Prod.snd = t0 :: rest.map Prod.snd := rfl
      have hchain0 : List.Chain' (· ≤ ·) (t0 :: ((o, t0) :: rest).map Prod.snd) := by
        rw [hmap]
        refine List.chain'_cons.mpr ⟨le_refl t0, ?_⟩
        rw [hmap] at hchain
        exact hchain
      obtain ⟨T2, _, hT2mem, _, hfin⟩ :=
        runOps_inv ((o, t0) :: rest) { window := window, limit := limit, history := [] }
          t0 h0w hinv0 hnw hchain0
      have hT2now : T2 ≤ now := by
        rcases hT2mem with h | h
        · rw [h]
          exact hnow t0 (List.mem_cons_self _ _)
        · exact hnow T2 h
      have hlive := liveCount_le_of_inv _ T2 now hT2now hfin
      rwa [(runOps_window_limit ((o, t0) :: rest) _).2] at hlive
  · intro l t
    constructor
    · by_cases hc : l.limit ≤ (l.slide t).length
      · simp only [Limiter.allow]
        rw [if_pos hc]
        constructor
        · intro h
          simp at h
        · intro h
          exact absurd h (not_lt.mpr hc)
      · simp only [Limiter.allow]
        rw [if_neg hc]
        constructor
        · intro _
          exact Nat.lt_of_not_le hc
        · intro _
          rfl
    · by_cases hc : l.limit ≤ (l.slide t).length
      · simp [Limiter.allow, hc]
      · simp [Limiter.allow, hc]

/-- C8 (witness): the amended theorem at window 10, limit 2, three calls at
instants 0, 1 and 3, checked at instant 5. -/
theorem limiter_invariant_witness :
    (runOps { window := 10, limit := 2, history := [] }
      [(.allow, 0), (.slots, 1), (.allow, 3)]).liveCount 5 ≤ 2 ∧
    ∀ (l : Limiter) (t : Int),
      ((l.allow t).1 = true ↔ (l.slide t).length < l.limit) ∧
      (l.allow t).2.history =
        (if l.limit ≤ (l.slide t).length then l.slide t else l.slide t ++ [t]) :=
  limiter_allow_slots_invariant 10 2 (by norm_num)
    [(.allow, 0), (.slots, 1), (.allow, 3)] (by decide)
    (by simp [List.chain'_cons]) 5 (by decide)

/-! ## C5 — review phase -/

/-- Number of review events for username `u` that the owner validated. -/
def countValidated (evs : List ReviewEvent) (u : String) : Nat :=
  (evs.filter (fun e => decide (e.player = u) && e.validate)).length

theorem countValidated_cons (ev : ReviewEvent) (evs : List ReviewEvent) (u : String) :
    countValidated (ev :: evs) u =
      (if ev.player = u ∧ ev.validate = true then 1 else 0) + countValidated evs u := by
  unfold countValidated
  rw [List.filter_cons]
  by_cases h1 : ev.player = u
  · by_cases h2 : ev.validate = true
    · simp [h1, h2, Nat.add_comm]
    · simp [h1, h2]
  · simp [h1]

theorem countValidated_append (evs1 evs2 : List ReviewEvent) (u : String) :
    countValidated (evs1 ++ evs2) u = countValidated evs1 u + countValidated evs2 u := by
  unfold countValidated
  rw [List.filter_append, List.length_append]

theorem countValidated_eq_zero (evs : List ReviewEvent) (u : String)
    (h : ∀ e ∈ evs, e.player ≠ u) : countValidated evs u = 0 := by
  unfold countValidated
  rw [List.filter_eq_nil_iff.mpr (fun e he => by simp [h e he])]
  rfl

/-- The per-player effect of a review run with event trace `evs`: identity,
liveness and answers are untouched, and the score is credited by one per
validated answer of that player. -/
def reviewedPlayer (evs : List ReviewEvent) (p p1 : Player) : Prop :=
  p1.username = p.username ∧ p1.alive = p.alive ∧ p1.answers = p.answers ∧
    p1.score = p.score + (countValidated evs p.username : Int)

theorem reviewedPlayer_nil_refl (ps : List Player) :
    List.Forall₂ (reviewedPlayer []) ps ps := by
  induction ps with
  | nil => exact .nil
  | cons a l ih => exact .cons ⟨rfl, rfl, rfl, by simp [countValidated]⟩ ih

theorem reviewedPlayer_extend (ev : ReviewEvent) (evs : List ReviewEvent) :
    ∀ (ps ps1 : List Player), (∀ p ∈ ps, p.username ≠ ev.player) →
      List.Forall₂ (reviewedPlayer evs) ps ps1 →
      List.Forall₂ (reviewedPlayer (ev :: evs)) ps ps1 := by
  intro ps
  induction ps with
  | nil =>
    intro ps1 _ h
    cases h
    exact .nil
  | cons a l ih =>
    intro ps1 hne h
    cases h with
    | cons hab htail =>
      refine .cons ?_ (ih _ (fun p hp => hne p (List.mem_cons_of_mem _ hp)) htail)
      obtain ⟨hu, hal, hans, hsc⟩ := hab
      refine ⟨hu, hal, hans, ?_⟩
      rw [countValidated_cons,
        if_neg (fun hc => hne a (List.mem_cons_self _ _) hc.1.symm)]
      simpa using hsc

theorem reviewedPlayer_comp (evs1 evs2 : List ReviewEvent) :
    ∀ ps ps1 ps2, List.Forall₂ (reviewedPlayer evs1) ps ps1 →
      List.Forall₂ (reviewedPlayer evs2) ps1 ps2 →
      List.Forall₂ (reviewedPlayer (evs1 ++ evs2)) ps ps2 := by
  intro ps
  induction ps with
  | nil =>
    intro ps1 ps2 h1 h2
    cases h1
    cases h2
    exact .nil
  | cons a l ih =>
    intro ps1 ps2 h1 h2
    cases h1 with
    | cons hab h1t =>
      cases h2 with
      | cons hbc h2t =>
        refine .cons ?_ (ih _ _ h1t h2t)
        obtain ⟨hu1, hal1, hans1, hsc1⟩ := hab
        obtain ⟨hu2, hal2, hans2, hsc2⟩ := hbc
        refine ⟨hu2.trans hu1, hal2.trans hal1, hans2.trans hans1, ?_⟩
        rw [countValidated_append, hsc2, hsc1, hu1]
        push_cast
        ring

theorem forall2_username_map (evs : List ReviewEvent) :
    ∀ ps ps1, List.Forall₂ (reviewedPlayer evs) ps ps1 →
      ps1.map Player.username = ps.map Player.username := by
  intro ps
  induction ps with
  | nil =>
    intro ps1 h
    cases h
    rfl
  | cons a l ih =>
    intro ps1 h
    cases h with
    | cons hab htail =>
      simp only [List.map_cons]
      rw [hab.1, ih _ htail]

theorem forall2_mem_right {r : Player → Player → Prop} :
    ∀ ps ps1, List.Forall₂ r ps ps1 → ∀ b ∈ ps1, ∃ a ∈ ps, r a b := by
  intro ps
  induction ps with
  | nil =>
    intro ps1 h b hb
    cases h
    simp at hb
  | cons a l ih =>
    intro ps1 h b hb
    cases h with
    | cons hab htail =>
      rcases List.mem_cons.mp hb with hb | hb
      · exact ⟨a, List.mem_cons_self _ _, hb ▸ hab⟩
      · obtain ⟨a2, ha2, hr⟩ := ih _ htail b hb
        exact ⟨a2, List.mem_cons_of_mem _ ha2, hr⟩

theorem reviewPlayers_cons_dead (q : Question) (p : Player) (ps : List Player)
    (ds : List Bool) (h : ¬ p.alive = true) :
    reviewPlayers q (p :: ps) ds =
      (reviewPlayers q ps ds).map (fun r => (r.1, p :: r.2.1, r.2.2)) := by
  simp only [reviewPlayers]
  rw [if_pos h]

theorem reviewPlayers_cons_noanswer (q : Question) (p : Player) (ps : List Player)
    (ds : List Bool) (h : p.alive = true) (ha : p.findAnswer q.id = none) :
    reviewPlayers q (p :: ps) ds =
      (reviewPlayers q ps ds).map (fun r => (r.1, p :: r.2.1, r.2.2)) := by
  simp only [reviewPlayers]
  rw [if_neg (not_not_intro h), ha]

theorem reviewPlayers_cons_answer_nil (q : Question) (p : Player) (ps : List Player)
    (a : Answer) (h : p.alive = true) (ha : p.findAnswer q.id = some a) :
    reviewPlayers q (p :: ps) [] = none := by
  simp only [reviewPlayers]
  rw [if_neg (not_not_intro h), ha]

theorem reviewPlayers_cons_answer (q : Question) (p : Player) (ps : List Player)
    (d : Bool) (ds : List Bool) (a : Answer) (h : p.alive = true)
    (ha : p.findAnswer q.id = some a) :
    reviewPlayers q (p :: ps) (d :: ds) =
      (reviewPlayers q ps ds).map (fun r =>
        (⟨q, p.username, a, d⟩ :: r.1, (if d then p.addScore 1 else p) :: r.2.1, r.2.2)) := by
  simp only [reviewPlayers]
  rw [if_neg (not_not_intro h), ha]

theorem reviewPlayers_events (q : Question) :
    ∀ (ps : List Player) (ds : List Bool) (evs : List ReviewEvent)
      (ps1 : List Player) (ds1 : List Bool),
      reviewPlayers q ps ds = some (evs, ps1, ds1) →
      ∀ e ∈ evs, e.question = q ∧ e.player ∈ ps.map Player.username ∧
        ∃ p ∈ ps, p.username = e.player ∧ p.alive = true ∧
          p.findAnswer q.id = some e.answer := by
  intro ps
  induction ps with
  | nil =>
    intro ds evs ps1 ds1 h e he
    simp only [reviewPlayers, Option.some.injEq, Prod.mk.injEq] at h
    rw [← h.1] at he
    simp at he
  | cons p ps ih =>
    intro ds evs ps1 ds1 h e he
    by_cases halive : p.alive
    · rcases hans : p.findAnswer q.id with _ | a
      · rw [reviewPlayers_cons_noanswer q p ps ds halive hans] at h
        rcases hrec : reviewPlayers q ps ds with _ | ⟨⟨evs2, ps2, ds2⟩⟩
        · rw [hrec] at h
          simp at h
        · rw [hrec] at h
          simp only [Option.map_some', Option.some.injEq, Prod.mk.injEq] at h
          rw [← h.1] at he
          obtain ⟨hq, hmem, p0, hp0, hrest⟩ := ih ds evs2 ps2 ds2 hrec e he
          exact ⟨hq, List.mem_cons_of_mem _ hmem, p0, List.mem_cons_of_mem _ hp0, hrest⟩
      · cases ds with
        | nil =>
          rw [reviewPlayers_cons_answer_nil q p ps a halive hans] at h
          simp at h
        | cons d ds0 =>
          rw [reviewPlayers_cons_answer q p ps d ds0 a halive hans] at h
          rcases hrec : reviewPlayers q ps ds0 with _ | ⟨⟨evs2, ps2, ds2⟩⟩
          · rw [hrec] at h
            simp at h
          · rw [hrec] at h
            simp only [Option.map_some', Option.some.injEq, Prod.mk.injEq] at h
            rw [← h.1] at he
            rcases List.mem_cons.mp he with he | he
            · subst he
              exact ⟨rfl, by simp, p, List.mem_cons_self _ _, rfl, halive, hans⟩
            · obtain ⟨hq, hmem, p0, hp0, hrest⟩ := ih ds0 evs2 ps2 ds2 hrec e he
              exact ⟨hq, List.mem_cons_of_mem _ hmem, p0, List.mem_cons_of_mem _ hp0, hrest⟩
    · rw [reviewPlayers_cons_dead q p ps ds halive] at h
      rcases hrec : reviewPlayers q ps ds with _ | ⟨⟨evs2, ps2, ds2⟩⟩
      · rw [hrec] at h
        simp at h
      · rw [hrec] at h
        simp only [Option.map_some', Option.some.injEq, Prod.mk.injEq] at h
        rw [← h.1] at he
        obtain ⟨hq, hmem, p0, hp0, hrest⟩ := ih ds evs2 ps2 ds2 hrec e he
        exact ⟨hq, List.mem_cons_of_mem _ hmem, p0, List.mem_cons_of_mem _ hp0, hrest⟩

theorem reviewPlayers_forall2 (q : Question) :
    ∀ (ps : List Player) (ds : List Bool) (evs : List ReviewEvent)
      (ps1 : List Player) (ds1 : List Bool),
      reviewPlayers q ps ds = some (evs, ps1, ds1) →
      (ps.map Player.username).Nodup →
      List.Forall₂ (reviewedPlayer evs) ps ps1 := by
  intro ps
  induction ps with
  | nil =>
    intro ds evs ps1 ds1 h _
    simp only [reviewPlayers, Option.some.injEq, Prod.mk.injEq] at h
    rw [← h.1, ← h.2.1]
    exact .nil
  | cons p ps ih =>
    intro ds evs ps1 ds1 h hnodup
    have hnotin : p.username ∉ ps.map Player.username := by
      simp only [List.map_cons, List.nodup_cons] at hnodup
      exact hnodup.1
    have hnd1 : (ps.map Player.username).Nodup := by
      simp only [List.map_cons, List.nodup_cons] at hnodup
      exact hnodup.2
    by_cases halive : p.alive
    · rcases hans : p.findAnswer q.id with _ | a
      · rw [reviewPlayers_cons_noanswer q p ps ds halive hans] at h
        rcases hrec : reviewPlayers q ps ds with _ | ⟨⟨evs2, ps2, ds2⟩⟩
        · rw [hrec] at h
          simp at h
        · rw [hrec] at h
          simp only [Option.map_some', Option.some.injEq, Prod.mk.injEq] at h
          have hforall := ih ds evs2 ps2 ds2 hrec hnd1
          have hz : countValidated evs2 p.username = 0 := by
            refine countValidated_eq_zero _ _ (fun e he hc => ?_)
            obtain ⟨_, hmem, _⟩ := reviewPlayers_events q ps ds evs2 ps2 ds2 hrec e he
            rw [hc] at hmem
            exact hnotin hmem
          rw [← h.1, ← h.2.1]
          exact .cons ⟨rfl, rfl, rfl, by simp [hz]⟩ hforall
      · cases ds with
        | nil =>
          rw [reviewPlayers_cons_answer_nil q p ps a halive hans] at h
          simp at h
        | cons d ds0 =>
          rw [reviewPlayers_cons_answer q p ps d ds0 a halive hans] at h
          rcases hrec : reviewPlayers q ps ds0 with _ | ⟨⟨evs2, ps2, ds2⟩⟩
          · rw [hrec] at h
            simp at h
          · rw [hrec] at h
            simp only [Option.map_some', Option.some.injEq, Prod.mk.injEq] at h
            have hforall := ih ds0 evs2 ps2 ds2 hrec hnd1
            have hz : countValidated evs2 p.username = 0 := by
              refine countValidated_eq_zero _ _ (fun e he hc => ?_)
              obtain ⟨_, hmem, _⟩ := reviewPlayers_events q ps ds0 evs2 ps2 ds2 hrec e he
              rw [hc] at hmem
              exact hnotin hmem
            have hne : ∀ p2 ∈ ps, p2.username ≠
                (⟨q, p.username, a, d⟩ : ReviewEvent).player := by
              intro p2 hp2 hc
              have hc2 : p2.username = p.username := hc
              exact hnotin (hc2 ▸ List.mem_map_of_mem Player.username hp2)
            rw [← h.1, ← h.2.1]
            refine .cons ?_ (reviewedPlayer_extend _ _ ps ps2 hne hforall)
            refine ⟨?_, ?_, ?_, ?_⟩
            · cases d <;> rfl
            · cases d <;> rfl
            · cases d <;> rfl
            · rw [countValidated_cons]
              show (if d then p.addScore 1 else p).score = _
              cases d
              · simp [hz]
              · simp [Player.addScore, hz]
    · rw [reviewPlayers_cons_dead q p ps ds halive] at h
      rcases hrec : reviewPlayers q ps ds with _ | ⟨⟨evs2, ps2, ds2⟩⟩
      · rw [hrec] at h
        simp at h
      · rw [hrec] at h
        simp only [Option.map_some', Option.some.injEq, Prod.mk.injEq] at h
        have hforall := ih ds evs2 ps2 ds2 hrec hnd1
        have hz : countValidated evs2 p.username = 0 := by
          refine countValidated_eq_zero _ _ (fun e he hc => ?_)
          obtain ⟨_, hmem, _⟩ := reviewPlayers_events q ps ds evs2 ps2 ds2 hrec e he
          rw [hc] at hmem
          exact hnotin hmem
        rw [← h.1, ← h.2.1]
        exact .cons ⟨rfl, rfl, rfl, by simp [hz]⟩ hforall

theorem findAnswer_congr (p p1 : Player) (h : p1.answers = p.answers) (x : Int) :
    p1.findAnswer x = p.findAnswer x := by
  simp [Player.findAnswer, Player.allAnswers, h]

theorem reviewQuestions_spec :
    ∀ (qs : List Question) (ps : List Player) (ds : List Bool)
      (evs : List ReviewEvent) (ps2 : List Player) (ds2 : List Bool),
      reviewQuestions qs ps ds = some (evs, ps2, ds2) →
      (ps.map Player.username).Nodup →
      List.Forall₂ (reviewedPlayer evs) ps ps2 ∧
      (∀ e ∈ evs, e.question ∈ qs ∧ ∃ p0 ∈ ps, p0.username = e.player ∧
        p0.alive = true ∧ p0.findAnswer e.question.id = some e.answer) := by
  intro qs
  induction qs with
  | nil =>
    intro ps ds evs ps2 ds2 h _
    simp only [reviewQuestions, Option.some.injEq, Prod.mk.injEq] at h
    constructor
    · rw [← h.1, ← h.2.1]
      exact reviewedPlayer_nil_refl ps
    · intro e he
      rw [← h.1] at he
      simp at he
  | cons q qs ih =>
    intro ps ds evs ps2 ds2 h hnd
    unfold reviewQuestions at h
    rcases h1 : reviewPlayers q ps ds with _ | ⟨⟨evs1, ps1, ds1⟩⟩
    · rw [h1] at h
      simp at h
    · rw [h1] at h
      simp only [] at h
      rcases h2 : reviewQuestions qs ps1 ds1 with _ | ⟨⟨evs2, ps2b, ds2b⟩⟩
      · rw [h2] at h
        simp at h
      · rw [h2] at h
        simp only [] at h
        simp only [Option.some.injEq, Prod.mk.injEq] at h
        have hf1 := reviewPlayers_forall2 q ps ds evs1 ps1 ds1 h1 hnd
        have hmapeq := forall2_username_map evs1 ps ps1 hf1
        have hnd1 : (ps1.map Player.username).Nodup := by
          rw [hmapeq]
          exact hnd
        obtain ⟨hf2, hall2⟩ := ih ps1 ds1 evs2 ps2b ds2b h2 hnd1
        constructor
        · rw [← h.1, ← h.2.1]
          exact reviewedPlayer_comp evs1 evs2 ps ps1 ps2b hf1 hf2
        · intro e he
          rw [← h.1] at he
          rcases List.mem_append.mp he with he | he
          · obtain ⟨hq, _, p0, hp0, hu, hal, hans⟩ :=
              reviewPlayers_events q ps ds evs1 ps1 ds1 h1 e he
            exact ⟨hq ▸ List.mem_cons_self _ _, p0, hp0, hu, hal, by rw [hq]; exact hans⟩
          · obtain ⟨hq, p1m, hp1m, hu, hal, hans⟩ := hall2 e he
            obtain ⟨p0, hp0, hrel⟩ := forall2_mem_right ps ps1 hf1 p1m hp1m
            refine ⟨List.mem_cons_of_mem _ hq, p0, hp0, ?_, ?_, ?_⟩
            · rw [← hrel.1]
              exact hu
            · rw [← hrel.2.1]
              exact hal
            · rw [← findAnswer_congr p0 p1m hrel.2.2.1]
              exact hans

/-- C5: a well-formed review request from a sender that is not the registered
owner is answered with the unauthorized error, and from the owner it delivers
`validate` to the review channel; and the modelled review phase — broadcasting
`review{question, player, answer}` for each live player's recorded answer and
blocking on the owner's decisions in order — credits each player's score by
exactly one per validated answer of that player, broadcasts
`results{username → score}` for the final scores, and ends in the Ended
state. -/
theorem review_phase_behavior :
    (∀ (l : Lobby) (conn : Conn) (v : Bool),
      (l.getPlayerByConn conn = none ∨ l.getPlayerByConn conn = some none ∨
        (∃ p, l.getPlayerByConn conn = some (some p) ∧ p.username ≠ l.owner)) →
      handleReviewRequest l conn true v = .error .unauthorized) ∧
    (∀ (l : Lobby) (conn : Conn) (v : Bool) (p : Player),
      l.getPlayerByConn conn = some (some p) → p.username = l.owner →
      handleReviewRequest l conn true v = .ok v) ∧
    (∀ (qs : List Question) (players : List Player) (ds : List Bool)
       (evs : List ReviewEvent) (ps : List Player)
       (results : List (String × Int)) (st : LobbyState),
      (players.map Player.username).Nodup →
      runReview qs players ds = some (evs, ps, results, st) →
      st = .ended ∧
      results = ps.map (fun p => (p.username, p.score)) ∧
      List.Forall₂ (fun p p1 => p1.username = p.username ∧ p1.alive = p.alive ∧
        p1.answers = p.answers ∧
        p1.score = p.score + (countValidated evs p.username : Int)) players ps ∧
      (∀ e ∈ evs, e.question ∈ qs ∧ ∃ p0 ∈ players, p0.username = e.player ∧
        p0.alive = true ∧ p0.findAnswer e.question.id = some e.answer)) := by
  refine ⟨?_, ?_, ?_⟩
  · intro l conn v hcase
    rcases hcase with hc | hc | ⟨p, hc, hne⟩
    · simp [handleReviewRequest, hc]
    · simp [handleReviewRequest, hc]
    · simp [handleReviewRequest, hc, hne]
  · intro l conn v p hlook hu
    simp [handleReviewRequest, hlook, hu]
  · intro qs players ds evs ps results st hnd hrun
    unfold runReview at hrun
    rcases h1 : reviewQuestions qs players ds with _ | ⟨⟨evs1, ps1, ds1⟩⟩
    · rw [h1] at hrun
      simp at hrun
    · rw [h1] at hrun
      simp only [] at hrun
      simp only [Option.some.injEq, Prod.mk.injEq] at hrun
      obtain ⟨hf, hall⟩ := reviewQuestions_spec qs players ds evs1 ps1 ds1 h1 hnd
      obtain ⟨he, hp, hr, hs⟩ := hrun
      subst he
      subst hp
      subst hr
      subst hs
      exact ⟨rfl, rfl, hf, hall⟩

/-- A live player holding an answer to question id 0. -/
def reviewPlayerAlice : Player :=
  { username := "alice", answers := some [(0, sampleAnswer)], score := 0, alive := true }

/-- C5 (witness): the owner (`"bob"`, connection 1) delivers a decision while
connection 2 is refused, and a one-question, one-player, one-decision review
run is fully characterised. -/
theorem review_phase_witness :
    handleReviewRequest sampleLobby 2 true true = .error .unauthorized ∧
    handleReviewRequest sampleLobby 1 true true = .ok true ∧
    ∀ (evs : List ReviewEvent) (ps : List Player)
      (results : List (String × Int)) (st : LobbyState),
      runReview [sampleQuestion] [reviewPlayerAlice] [true] = some (evs, ps, results, st) →
      st = .ended ∧
      results = ps.map (fun p => (p.username, p.score)) ∧
      List.Forall₂ (fun p p1 => p1.username = p.username ∧ p1.alive = p.alive ∧
        p1.answers = p.answers ∧
        p1.score = p.score + (countValidated evs p.username : Int))
        [reviewPlayerAlice] ps ∧
      (∀ e ∈ evs, e.question ∈ [sampleQuestion] ∧ ∃ p0 ∈ [reviewPlayerAlice],
        p0.username = e.player ∧ p0.alive = true ∧
        p0.findAnswer e.question.id = some e.answer) :=
  ⟨review_phase_behavior.1 sampleLobby 2 true (Or.inr (Or.inl (by decide))),
   review_phase_behavior.2.1 sampleLobby 1 true
     { username := "bob", answers := none, score := 0, alive := true } (by decide) rfl,
   fun evs ps results st hrun =>
     review_phase_behavior.2.2 [sampleQuestion] [reviewPlayerAlice] [true]
       evs ps results st (by decide) hrun⟩

end SevenQuiz
